import Mathlib

/-!
Verification of the fuschia workflow runtime against its specification.

The development shallowly embeds the Rust sources of the workflow runtime:

* `crates/fuschia-workflow/src/graph.rs` (graph construction and queries),
* `crates/fuschia-runtime/src/input.rs` (template resolution and schema
  coercion),
* `crates/fuschia-runtime/src/runtime.rs` (validation, trigger execution,
  the ready-set scheduler loop),
* `crates/fuschia-runtime/src/task.rs` and
  `crates/fuschia-task-host/src/executor.rs` (epoch-deadline derivation and
  task invocation),
* `crates/fuschia-workflow-runtime/src/cache.rs` and
  `crates/fuschia-workflow-executor/src/cache.rs` (the two component caches).

External collaborators (the minijinja template engine, the Rust standard
string-to-number parsers, serde_json string parsing and serialization, and
the wasmtime sandbox) are modelled as explicit function parameters bundled
in the `Ext` structure; everything the repository itself implements is
translated structurally.

Rust `HashMap`s are modelled as association lists (`List (κ × α)`) with
first-match lookup; `serde_json::Map` (a BTreeMap) is modelled by
key-sorted insertion.  Fresh UUIDs (execution ids, task ids) are threaded
as parameters or fixed to `""` since no modelled behavior depends on them.
The `CancellationToken` is modelled as never cancelled: none of the claims
below concern cancellation.
-/

namespace Fuschia

/-- First-match lookup in an association list; models Rust `HashMap::get`. -/
def lookupKV {κ α : Type} [DecidableEq κ] : List (κ × α) → κ → Option α
  | [], _ => none
  | (k, v) :: rest, key => if k = key then some v else lookupKV rest key

/-- Insert-or-replace in an association list; models Rust `HashMap::insert`. -/
def insertKV {κ α : Type} [DecidableEq κ] : List (κ × α) → κ → α → List (κ × α)
  | [], key, val => [(key, val)]
  | (k, v) :: rest, key, val =>
    if k = key then (k, val) :: rest else (k, v) :: insertKV rest key val

/-- Push a value onto the list stored at a key, creating an empty entry first
if the key is absent; models Rust `map.entry(k).or_default().push(v)`. -/
def pushKV {β : Type} : List (String × List β) → String → β → List (String × List β)
  | [], key, v => [(key, [v])]
  | (k, vs) :: rest, key, v =>
    if k = key then (k, vs ++ [v]) :: rest else (k, vs) :: pushKV rest key v

/-- Ensure a key is present with a default empty list; models Rust
`map.entry(k).or_default()` when the value is discarded. -/
def ensureKV {β : Type} : List (String × List β) → String → List (String × List β)
  | [], key => [(key, [])]
  | (k, vs) :: rest, key =>
    if k = key then (k, vs) :: rest else (k, vs) :: ensureKV rest key

/-- The keys of an association list. -/
def keysOf {κ α : Type} (l : List (κ × α)) : List κ := l.map Prod.fst

@[simp] theorem keysOf_nil {κ α : Type} : keysOf ([] : List (κ × α)) = [] := rfl

@[simp] theorem keysOf_cons {κ α : Type} (k : κ) (v : α) (l : List (κ × α)) :
    keysOf ((k, v) :: l) = k :: keysOf l := rfl

theorem lookupKV_isSome_iff {κ α : Type} [DecidableEq κ] (l : List (κ × α)) (k : κ) :
    (lookupKV l k).isSome ↔ k ∈ keysOf l := by
  induction l with
  | nil => simp [lookupKV]
  | cons p rest ih =>
    obtain ⟨k', v⟩ := p
    by_cases h : k' = k
    · subst h; simp [lookupKV]
    · simp only [lookupKV, if_neg h, keysOf_cons, List.mem_cons, ih]
      constructor
      · exact Or.inr
      · intro hm
        rcases hm with hm | hm
        · exact absurd hm.symm h
        · exact hm

theorem lookupKV_eq_none_of_not_mem {κ α : Type} [DecidableEq κ] {l : List (κ × α)} {k : κ}
    (h : k ∉ keysOf l) : lookupKV l k = none := by
  cases hl : lookupKV l k with
  | none => rfl
  | some v =>
    exact absurd ((lookupKV_isSome_iff l k).mp (by simp [hl])) h

theorem lookupKV_insertKV_self {κ α : Type} [DecidableEq κ] (l : List (κ × α)) (k : κ) (v : α) :
    lookupKV (insertKV l k v) k = some v := by
  induction l with
  | nil => simp [insertKV, lookupKV]
  | cons p rest ih =>
    obtain ⟨k', w⟩ := p
    by_cases h : k' = k <;> simp [insertKV, lookupKV, h, ih]

theorem lookupKV_insertKV_ne {κ α : Type} [DecidableEq κ] (l : List (κ × α)) (k k' : κ) (v : α)
    (h : k ≠ k') : lookupKV (insertKV l k v) k' = lookupKV l k' := by
  induction l with
  | nil => simp [insertKV, lookupKV, h]
  | cons p rest ih =>
    obtain ⟨k0, w⟩ := p
    by_cases h0 : k0 = k
    · subst h0; simp [insertKV, lookupKV, h]
    · simp [insertKV, h0, lookupKV]
      by_cases h1 : k0 = k' <;> simp [h1, ih]

theorem mem_keysOf_insertKV {κ α : Type} [DecidableEq κ] (l : List (κ × α)) (k k' : κ) (v : α) :
    k' ∈ keysOf (insertKV l k v) ↔ k' ∈ keysOf l ∨ k' = k := by
  induction l with
  | nil => simp [insertKV, eq_comm]
  | cons p rest ih =>
    obtain ⟨k0, w⟩ := p
    by_cases h0 : k0 = k
    · subst h0
      simp only [insertKV, if_true, eq_self_iff_true, keysOf_cons, List.mem_cons]
      tauto
    · simp only [insertKV, if_neg h0, keysOf_cons, List.mem_cons, ih]
      tauto

theorem keysOf_insertKV_nodup {κ α : Type} [DecidableEq κ] (l : List (κ × α)) (k : κ) (v : α)
    (h : (keysOf l).Nodup) : (keysOf (insertKV l k v)).Nodup := by
  induction l with
  | nil => simp [insertKV]
  | cons p rest ih =>
    obtain ⟨k0, w⟩ := p
    simp only [keysOf_cons, List.nodup_cons] at h
    by_cases h0 : k0 = k
    · subst h0
      simp only [insertKV, if_true, eq_self_iff_true, keysOf_cons, List.nodup_cons]
      exact h
    · simp only [insertKV, if_neg h0, keysOf_cons, List.nodup_cons]
      refine ⟨fun hm => ?_, ih h.2⟩
      rcases (mem_keysOf_insertKV rest k k0 v).mp hm with hm' | hm'
      · exact h.1 hm'
      · exact h0 hm'

/-- A 64-bit IEEE float as observed by the runtime: the model records only
whether the value is finite (serde_json `Number::from_f64` returns `None`
exactly for non-finite values) and its bit pattern as identity. -/
structure F64 where
  finite : Bool
  bits : Nat
deriving DecidableEq

/-- The `serde_json::Value` data type.  Integer-backed and float-backed
numbers are distinguished, as in serde_json `Number`. -/
inductive Json where
  | null
  | bool (b : Bool)
  | int (n : Int)
  | num (f : F64)
  | str (s : String)
  | arr (items : List Json)
  | obj (fields : List (String × Json))

/-- Field access on a JSON object; models `serde_json::Value::get`. -/
def jsonGet : Json → String → Option Json
  | .obj fields, key => lookupKV fields key
  | _, _ => none

/-- String extraction; models `serde_json::Value::as_str`. -/
def jsonAsStr : Json → Option String
  | .str s => some s
  | _ => none

/-- A locked task component reference
(`crates/fuscia-workflow/src/node.rs`, `LockedComponent`). -/
structure LockedComponent where
  name : String
  version : String
  digest : String
  taskName : String
  inputSchema : Json

/-- A locked trigger component reference (`LockedTriggerComponent`). -/
structure LockedTriggerComponent where
  name : String
  version : String
  digest : String
  triggerName : String
  inputSchema : Json

/-- Trigger discriminator (`crates/fuschia-config`, `TriggerType`). -/
inductive TriggerType where
  | manual
  | poll (intervalMs : Nat)
  | webhook (method : String)

/-- A locked trigger (`LockedTrigger`): discriminator plus optional component. -/
structure LockedTrigger where
  triggerType : TriggerType
  component : Option LockedTriggerComponent

/-- Join strategy discriminator (`JoinStrategy`). -/
inductive JoinStrategy where
  | all
  | any

/-- Node kind (`NodeType` in `crates/fuscia-workflow/src/node.rs`).  The
`Loop` variant's payload (execution mode, concurrency, failure mode,
nested workflow) is omitted: every modelled code path matches
`NodeType::Loop(_)` without inspecting it (loops are rejected as
unimplemented, `runtime.rs` line 590). -/
inductive NodeType where
  | trigger (t : LockedTrigger)
  | component (c : LockedComponent)
  | join (strategy : JoinStrategy)
  | loop

/-- A workflow node.  The `node.rs` of `crates/fuschia-workflow` is not in
the source tree; fields follow the parallel iteration
`crates/fuscia-workflow/src/node.rs` and the runtime's usage, which passes
`node.inputs` to `resolve_inputs` as a map from input name to template
string. -/
structure Node where
  nodeId : String
  nodeType : NodeType
  inputs : List (String × String)
  timeoutMs : Option Nat
  maxRetryAttempts : Option Nat
  failWorkflow : Bool

/-- A locked workflow (`crates/fuschia-workflow/src/workflow.rs`). -/
structure Workflow where
  workflowId : String
  name : String
  nodes : List (String × Node)
  edges : List (String × String)
  timeoutMs : Option Nat
  maxRetryAttempts : Option Nat

/-- The node-id set of a workflow (keys of the node mapping). -/
def Workflow.nodeIds (wf : Workflow) : List String := keysOf wf.nodes

/-- Lookup a node by id (`Workflow::get_node`). -/
def Workflow.getNode (wf : Workflow) (id : String) : Option Node := lookupKV wf.nodes id

/-- Graph structure (`crates/fuschia-workflow/src/graph.rs`). -/
structure Graph where
  adjacency : List (String × List String)
  reverseAdjacency : List (String × List String)
  entryPoints : List String
  joinPoints : List String

/-- Build a graph from nodes and edges (`Graph::new`): initialize an entry
per node, push every edge into the adjacency and reverse-adjacency maps,
then compute entry points (empty incoming) and join points (more than one
incoming). -/
def Graph.new (nodes : List (String × Node)) (edges : List (String × String)) : Graph :=
  let adj0 := nodes.foldl (fun m p => ensureKV m p.1) []
  let radj0 := nodes.foldl (fun m p => ensureKV m p.1) []
  let adj := edges.foldl (fun m e => pushKV m e.1 e.2) adj0
  let radj := edges.foldl (fun m e => pushKV m e.2 e.1) radj0
  let entries := (keysOf nodes).filter (fun id =>
    match lookupKV radj id with
    | none => true
    | some v => v.isEmpty)
  let joins := keysOf (radj.filter (fun p => decide (1 < p.2.length)))
  ⟨adj, radj, entries, joins⟩

/-- Upstream neighbours (`Graph::upstream`): reverse adjacency, default empty. -/
def Graph.upstream (g : Graph) (id : String) : List String :=
  (lookupKV g.reverseAdjacency id).getD []

/-- Downstream neighbours (`Graph::downstream`). -/
def Graph.downstream (g : Graph) (id : String) : List String :=
  (lookupKV g.adjacency id).getD []

/-- Join-point test (`Graph::is_join_point`). -/
def Graph.isJoinPoint (g : Graph) (id : String) : Bool :=
  g.joinPoints.contains id

/-- The graph of a workflow (`Workflow::graph`). -/
def Workflow.graph (wf : Workflow) : Graph := Graph.new wf.nodes wf.edges


/-- Lookup-or-empty in a list-valued association list. -/
def lookupOrNil {β : Type} (m : List (String × List β)) (k : String) : List β :=
  (lookupKV m k).getD []

theorem lookupOrNil_pushKV {β : Type} (m : List (String × List β)) (key k : String) (v : β) :
    lookupOrNil (pushKV m key v) k =
      if key = k then lookupOrNil m k ++ [v] else lookupOrNil m k := by
  induction m with
  | nil =>
    by_cases h : key = k <;> simp [pushKV, lookupOrNil, lookupKV, h]
  | cons p rest ih =>
    obtain ⟨k0, vs⟩ := p
    by_cases h0 : k0 = key
    · subst h0
      by_cases h : k0 = k <;> simp [pushKV, lookupOrNil, lookupKV, h]
    · simp only [pushKV, if_neg h0]
      by_cases h1 : k0 = k
      · subst h1
        have hk : ¬ key = k0 := fun hh => h0 hh.symm
        simp [lookupOrNil, lookupKV, hk]
      · simp only [lookupOrNil, lookupKV, if_neg h1] at *
        exact ih

theorem lookupOrNil_ensureKV {β : Type} (m : List (String × List β)) (key k : String) :
    lookupOrNil (ensureKV m key) k = lookupOrNil m k := by
  induction m with
  | nil =>
    by_cases h : key = k <;> simp [ensureKV, lookupOrNil, lookupKV, h]
  | cons p rest ih =>
    obtain ⟨k0, vs⟩ := p
    by_cases h0 : k0 = key
    · subst h0; simp [ensureKV, lookupOrNil, lookupKV]
    · by_cases h1 : k0 = k
      · subst h1
        have hk : ¬ k0 = key := h0
        simp [ensureKV, hk, lookupOrNil, lookupKV]
      · simp only [ensureKV, if_neg h0, lookupOrNil, lookupKV, if_neg h1]
        exact ih

theorem lookupOrNil_foldl_pushSnd (edges : List (String × String))
    (m : List (String × List String)) (n : String) :
    lookupOrNil (edges.foldl (fun m e => pushKV m e.2 e.1) m) n =
      lookupOrNil m n ++ (edges.filter (fun e => e.2 = n)).map Prod.fst := by
  induction edges generalizing m with
  | nil => simp
  | cons e rest ih =>
    obtain ⟨a, b⟩ := e
    by_cases h : b = n
    · subst h
      simp [List.foldl_cons, ih, List.filter_cons, lookupOrNil_pushKV]
    · simp [List.foldl_cons, ih, List.filter_cons, lookupOrNil_pushKV, h]

theorem lookupOrNil_foldl_ensure {α β : Type} (nodes : List (String × α))
    (m : List (String × List β)) (n : String) :
    lookupOrNil (nodes.foldl (fun m p => ensureKV m p.1) m) n = lookupOrNil m n := by
  induction nodes generalizing m with
  | nil => rfl
  | cons p rest ih =>
    simp only [List.foldl_cons, ih, lookupOrNil_ensureKV]

/-- The reverse adjacency built by `Graph::new` lists, for each node `n`,
the sources of the edges into `n`, in edge order and with multiplicity. -/
theorem Graph.upstream_new (nodes : List (String × Node)) (edges : List (String × String))
    (n : String) :
    (Graph.new nodes edges).upstream n = (edges.filter (fun e => e.2 = n)).map Prod.fst := by
  show lookupOrNil (edges.foldl (fun m e => pushKV m e.2 e.1)
      (nodes.foldl (fun m p => ensureKV m p.1) [])) n = _
  rw [lookupOrNil_foldl_pushSnd, lookupOrNil_foldl_ensure]
  simp [lookupOrNil, lookupKV]

theorem lookupKV_eq_some_iff_mem {κ α : Type} [DecidableEq κ] {l : List (κ × α)}
    (hnd : (keysOf l).Nodup) (k : κ) (v : α) :
    lookupKV l k = some v ↔ (k, v) ∈ l := by
  induction l with
  | nil => simp [lookupKV]
  | cons p rest ih =>
    obtain ⟨k0, w⟩ := p
    simp only [keysOf_cons, List.nodup_cons] at hnd
    by_cases h : k0 = k
    · subst h
      constructor
      · intro hv
        have hw : w = v := by simpa [lookupKV] using hv
        subst hw
        exact List.mem_cons_self _ _
      · intro hv
        rcases List.mem_cons.mp hv with hv | hv
        · have hw : v = w := (Prod.ext_iff.mp hv).2
          simp [lookupKV, hw]
        · have : k0 ∈ keysOf rest := List.mem_map_of_mem Prod.fst hv
          exact absurd this hnd.1
    · simp only [lookupKV, if_neg h, List.mem_cons, ih hnd.2]
      constructor
      · exact Or.inr
      · intro hv
        rcases hv with hv | hv
        · exact absurd (Prod.ext_iff.mp hv).1.symm h
        · exact hv

theorem mem_keysOf_pushKV {β : Type} (m : List (String × List β)) (key k : String) (v : β) :
    k ∈ keysOf (pushKV m key v) ↔ k ∈ keysOf m ∨ k = key := by
  induction m with
  | nil => simp [pushKV, eq_comm]
  | cons p rest ih =>
    obtain ⟨k0, vs⟩ := p
    by_cases h0 : k0 = key
    · subst h0
      simp only [pushKV, if_true, eq_self_iff_true, keysOf_cons, List.mem_cons]
      tauto
    · simp only [pushKV, if_neg h0, keysOf_cons, List.mem_cons, ih]
      tauto

theorem keysOf_pushKV_nodup {β : Type} (m : List (String × List β)) (key : String) (v : β)
    (h : (keysOf m).Nodup) : (keysOf (pushKV m key v)).Nodup := by
  induction m with
  | nil => simp [pushKV]
  | cons p rest ih =>
    obtain ⟨k0, vs⟩ := p
    simp only [keysOf_cons, List.nodup_cons] at h
    by_cases h0 : k0 = key
    · subst h0
      simp only [pushKV, if_true, eq_self_iff_true, keysOf_cons, List.nodup_cons]
      exact h
    · simp only [pushKV, if_neg h0, keysOf_cons, List.nodup_cons]
      refine ⟨fun hm => ?_, ih h.2⟩
      rcases (mem_keysOf_pushKV rest key k0 v).mp hm with hm' | hm'
      · exact h.1 hm'
      · exact h0 hm'

theorem mem_keysOf_ensureKV {β : Type} (m : List (String × List β)) (key k : String) :
    k ∈ keysOf (ensureKV m key) ↔ k ∈ keysOf m ∨ k = key := by
  induction m with
  | nil => simp [ensureKV, eq_comm]
  | cons p rest ih =>
    obtain ⟨k0, vs⟩ := p
    by_cases h0 : k0 = key
    · subst h0
      simp only [ensureKV, if_true, eq_self_iff_true, keysOf_cons, List.mem_cons]
      tauto
    · simp only [ensureKV, if_neg h0, keysOf_cons, List.mem_cons, ih]
      tauto

theorem keysOf_ensureKV_nodup {β : Type} (m : List (String × List β)) (key : String)
    (h : (keysOf m).Nodup) : (keysOf (ensureKV m key)).Nodup := by
  induction m with
  | nil => simp [ensureKV]
  | cons p rest ih =>
    obtain ⟨k0, vs⟩ := p
    simp only [keysOf_cons, List.nodup_cons] at h
    by_cases h0 : k0 = key
    · subst h0
      simp only [ensureKV, if_true, eq_self_iff_true, keysOf_cons, List.nodup_cons]
      exact h
    · simp only [ensureKV, if_neg h0, keysOf_cons, List.nodup_cons]
      refine ⟨fun hm => ?_, ih h.2⟩
      rcases (mem_keysOf_ensureKV rest key k0).mp hm with hm' | hm'
      · exact h.1 hm'
      · exact h0 hm'

theorem keysOf_foldl_ensure_nodup {α : Type} (nodes : List (String × α))
    (m : List (String × List String)) (h : (keysOf m).Nodup) :
    (keysOf (nodes.foldl (fun m p => ensureKV m p.1) m)).Nodup := by
  induction nodes generalizing m with
  | nil => exact h
  | cons p rest ih =>
    exact ih _ (keysOf_ensureKV_nodup m p.1 h)

theorem keysOf_foldl_push_nodup (edges : List (String × String))
    (m : List (String × List String)) (h : (keysOf m).Nodup) :
    (keysOf (edges.foldl (fun m e => pushKV m e.2 e.1) m)).Nodup := by
  induction edges generalizing m with
  | nil => exact h
  | cons e rest ih =>
    exact ih _ (keysOf_pushKV_nodup m e.2 e.1 h)

/-- The reverse-adjacency map built by `Graph::new` has no duplicate keys. -/
theorem Graph.new_radj_nodup (nodes : List (String × Node)) (edges : List (String × String)) :
    (keysOf (Graph.new nodes edges).reverseAdjacency).Nodup :=
  keysOf_foldl_push_nodup edges _ (keysOf_foldl_ensure_nodup nodes [] (by simp))

/-- Entry-point membership (`Graph::new` entry computation): a node id is an
entry point iff it is a node key and its upstream list is empty. -/
theorem Graph.mem_entryPoints_iff (nodes : List (String × Node))
    (edges : List (String × String)) (id : String) :
    id ∈ (Graph.new nodes edges).entryPoints ↔
      id ∈ keysOf nodes ∧ (Graph.new nodes edges).upstream id = [] := by
  show id ∈ (keysOf nodes).filter _ ↔ _
  rw [List.mem_filter]
  refine and_congr_right (fun _ => ?_)
  show (match lookupKV (Graph.new nodes edges).reverseAdjacency id with
      | none => true
      | some v => v.isEmpty) = true ↔ (Graph.new nodes edges).upstream id = []
  unfold Graph.upstream
  cases lookupKV (Graph.new nodes edges).reverseAdjacency id with
  | none => simp
  | some v => simp [List.isEmpty_iff]

/-- Join-point membership (`Graph::new` join computation): a node id is a
join point iff its upstream list has more than one element. -/
theorem Graph.isJoinPoint_iff (nodes : List (String × Node))
    (edges : List (String × String)) (id : String) :
    (Graph.new nodes edges).isJoinPoint id = true ↔
      1 < ((Graph.new nodes edges).upstream id).length := by
  have hnd : (keysOf (Graph.new nodes edges).reverseAdjacency).Nodup :=
    Graph.new_radj_nodup nodes edges
  have hmem : (Graph.new nodes edges).isJoinPoint id = true ↔
      ∃ vs, (id, vs) ∈ (Graph.new nodes edges).reverseAdjacency ∧ 1 < vs.length := by
    show ((keysOf ((Graph.new nodes edges).reverseAdjacency.filter
        (fun p => decide (1 < p.2.length)))).contains id) = true ↔ _
    simp only [List.contains, List.elem_eq_mem, decide_eq_true_eq, keysOf, List.mem_map,
      List.mem_filter]
    constructor
    · rintro ⟨p, ⟨hp, hlen⟩, hfst⟩
      refine ⟨p.2, ?_, by simpa using hlen⟩
      rw [← hfst]
      simpa [Prod.mk.eta] using hp
    · rintro ⟨vs, hmem, hlen⟩
      exact ⟨(id, vs), ⟨hmem, by simpa using hlen⟩, rfl⟩
  rw [hmem]
  unfold Graph.upstream
  constructor
  · rintro ⟨vs, hmem, hlen⟩
    rw [(lookupKV_eq_some_iff_mem hnd id vs).mpr hmem]
    simpa using hlen
  · intro hlen
    cases hl : lookupKV (Graph.new nodes edges).reverseAdjacency id with
    | none => rw [hl] at hlen; simp at hlen
    | some vs =>
      rw [hl] at hlen
      exact ⟨vs, (lookupKV_eq_some_iff_mem hnd id vs).mp hl, by simpa using hlen⟩

/-- Sandbox host errors (`crates/fuschia-host/src/error.rs`, `HostError`),
carried opaquely by the runtime. -/
inductive HostError where
  | instantiation (message : String)
  | wasmtime (message : String)
  | componentError (message : String)
  | resource (message : String)
deriving DecidableEq

/-- Runtime errors (`crates/fuschia-runtime/src/error.rs`, `RuntimeError`). -/
inductive RuntimeError where
  | cancelled
  | inputSerialization (message : String)
  | componentExecution (source : HostError)
  | invalidOutput (message : String)
  | inputResolution (nodeId message : String)
  | componentLoad (nodeId message : String)
  | invalidGraph (message : String)
deriving DecidableEq

/-- Errors of the `fuschia-workflow-runtime` iteration
(`crates/fuschia-workflow-runtime/src/error.rs`, `RuntimeError` there).
Note that this enum has no component-load variant at all. -/
inductive WRError where
  | nodeNotFound (nodeId : String)
  | invalidGraph (message : String)
  | inputResolution (nodeId message : String)
  | componentExecution (nodeId : String) (source : HostError)
  | cancelled
deriving DecidableEq

/-- Errors of the `fuschia-workflow-executor` iteration
(`crates/fuschia-workflow-executor/src/error.rs`, `ExecutionError`). -/
inductive ExecutionError where
  | cancelled
  | inputResolution (nodeId message : String)
  | componentLoad (nodeId message : String)
  | componentExecution (nodeId : String) (source : HostError)
  | invalidOutput (nodeId message : String)
  | invalidGraph (message : String)
deriving DecidableEq

/-- Webhook event payload (trigger-component world, §4.5 of the spec;
the WIT bindings are generated, not in the source tree).  Modelled from the
spec: `Webhook{method, path, headers[], body?}`. -/
structure WebhookRequest where
  method : String
  path : String
  headers : List (String × String)
  body : Option String

/-- Trigger event (`fuschia_trigger_host::Event`).  Modelled from the spec:
event is `Poll` or `Webhook{...}`. -/
inductive Event where
  | poll
  | webhook (req : WebhookRequest)

/-- Trigger status (`fuschia_trigger_host::Status`).  Modelled from the
spec: status is `Pending` or `Completed(payload_json_string)`. -/
inductive Status where
  | pending
  | completed (payload : String)

/-- An opaque compiled wasm component (`wasmtime::component::Component`);
only its identity matters to the model. -/
structure WasmComponent where
  compId : String
deriving DecidableEq

-- ===========================================================================
-- Input resolution (`crates/fuschia-runtime/src/input.rs`)
-- ===========================================================================

/-- JSON-Schema property types (`input.rs`, `SchemaType`). -/
inductive SchemaType where
  | string
  | number
  | integer
  | boolean
  | null
  | array
  | object
deriving DecidableEq

/-- The type-string match of `extract_schema_types`: the seven known names,
anything else defaulting to string. -/
def schemaTypeOfString (s : String) : SchemaType :=
  match s with
  | "string" => .string
  | "number" => .number
  | "integer" => .integer
  | "boolean" => .boolean
  | "null" => .null
  | "array" => .array
  | "object" => .object
  | _ => .string

/-- The per-property step of `extract_schema_types`: a property contributes
a type only when its schema has a string-valued `type` field. -/
def extractOne (propSchema : Json) : Option SchemaType :=
  match (jsonGet propSchema "type").bind jsonAsStr with
  | some t => some (schemaTypeOfString t)
  | none => none

/-- Extract property types from a JSON schema (`extract_schema_types`). -/
def extractSchemaTypes (jsonSchema : Json) : List (String × SchemaType) :=
  match jsonGet jsonSchema "properties" with
  | some (.obj props) =>
    props.foldl (fun acc p =>
      match extractOne p.2 with
      | some st => insertKV acc p.1 st
      | none => acc) []
  | _ => []

/-- Insertion into a key-sorted association list; models insertion into a
`serde_json::Map` (a `BTreeMap<String, Value>`). -/
def sortedInsertKV : List (String × Json) → String → Json → List (String × Json)
  | [], key, v => [(key, v)]
  | (k, w) :: rest, key, v =>
    if key = k then (k, v) :: rest
    else if key < k then (key, v) :: (k, w) :: rest
    else (k, w) :: sortedInsertKV rest key v

/-- Collect an association list into a key-sorted map, later entries
overwriting earlier ones; models `.collect::<serde_json::Map<_, _>>()`. -/
def toBTreeMap (l : List (String × Json)) : List (String × Json) :=
  l.foldl (fun m p => sortedInsertKV m p.1 p.2) []

/-- Context assembly of `resolve_inputs` (`input.rs` lines 93 to 105):
for a join the context is the object keyed by upstream node ids; otherwise
it is the first upstream value, or the empty object when there is none. -/
def buildContext (upstreamData : List (String × Json)) (isJoin : Bool) : Json :=
  if isJoin then
    .obj (toBTreeMap upstreamData)
  else
    match upstreamData with
    | [] => .obj []
    | (_, v) :: _ => v

/-- Render one template (`resolve_template`), wrapping render failures in
`InputResolution`.  The minijinja `render_str` call is the `render`
parameter. -/
def resolveTemplate (render : String → Json → Except String String)
    (nodeId inputKey template : String) (context : Json) : Except RuntimeError String :=
  match render template context with
  | .ok s => .ok s
  | .error e =>
    .error (.inputResolution nodeId
      ("failed to resolve input " ++ inputKey ++ ": " ++ e))

/-- Resolve a node's inputs against upstream data (`resolve_inputs`):
build the context, then render every input template into a string map. -/
def resolveInputs (render : String → Json → Except String String)
    (nodeId : String) (inputs : List (String × String))
    (upstreamData : List (String × Json)) (isJoin : Bool) :
    Except RuntimeError (List (String × String)) :=
  let context := buildContext upstreamData isJoin
  inputs.foldlM (fun acc p => do
    let v ← resolveTemplate render nodeId p.1 p.2 context
    pure (insertKV acc p.1 v)) []

/-- Coerce one rendered string to a typed JSON value (`coerce_value`).
The Rust standard parsers are the `parseI64` (signed 64-bit integer parse),
`parseF64` (64-bit float parse) and `parseJson` (`serde_json::from_str`)
parameters. -/
def coerceValue (parseI64 : String → Option Int) (parseF64 : String → Option F64)
    (parseJson : String → Except String Json)
    (nodeId inputKey value : String) (schemaType : SchemaType) :
    Except RuntimeError Json :=
  match schemaType with
  | .string => .ok (.str value)
  | .number =>
    match parseF64 value with
    | some f => .ok (if f.finite then Json.num f else Json.null)
    | none =>
      .error (.inputResolution nodeId
        ("input " ++ inputKey ++ " expected number, got " ++ value))
  | .integer =>
    match parseI64 value with
    | some n => .ok (.int n)
    | none =>
      .error (.inputResolution nodeId
        ("input " ++ inputKey ++ " expected integer, got " ++ value))
  | .boolean =>
    if value.toLower = "true" then .ok (.bool true)
    else if value.toLower = "false" then .ok (.bool false)
    else
      .error (.inputResolution nodeId
        ("input " ++ inputKey ++ " expected boolean, got " ++ value))
  | .null =>
    if value = "" ∨ value = "null" then .ok .null
    else
      .error (.inputResolution nodeId
        ("input " ++ inputKey ++ " expected null, got " ++ value))
  | .array =>
    match parseJson value with
    | .ok j => .ok j
    | .error e =>
      .error (.inputResolution nodeId
        ("input " ++ inputKey ++ " expected array: " ++ e))
  | .object =>
    match parseJson value with
    | .ok j => .ok j
    | .error e =>
      .error (.inputResolution nodeId
        ("input " ++ inputKey ++ " expected object: " ++ e))

/-- The schema type used for an input key by `coerce_inputs`:
`schema.get(key).unwrap_or(&SchemaType::String)`. -/
def schemaTypeFor (schema : List (String × SchemaType)) (key : String) : SchemaType :=
  (lookupKV schema key).getD .string

/-- Coerce all resolved inputs (`coerce_inputs`), building a
`serde_json::Map` (key-sorted) of typed values. -/
def coerceInputs (parseI64 : String → Option Int) (parseF64 : String → Option F64)
    (parseJson : String → Except String Json)
    (nodeId : String) (resolved : List (String × String))
    (schema : List (String × SchemaType)) : Except RuntimeError Json := do
  let fields ← resolved.foldlM (fun acc p => do
    let tv ← coerceValue parseI64 parseF64 parseJson nodeId p.1 p.2
      (schemaTypeFor schema p.1)
    pure (sortedInsertKV acc p.1 tv)) []
  pure (.obj fields)

-- ===========================================================================
-- External collaborators
-- ===========================================================================

/-- The external collaborators of the runtime, as pure functions:
minijinja rendering, the standard string parsers, serde_json parsing and
serialization, component compilation (the component cache plus the
`{base}/{sanitized}--{version}/component.wasm` path construction, whose
`cache.rs` module of `fuschia-runtime` is not in the source tree), and the
wasmtime sandbox calls for the task `execute` and trigger `handle`
exports.  The sandbox functions receive the epoch deadline the runtime
sets on the store. -/
structure Ext where
  render : String → Json → Except String String
  parseI64 : String → Option Int
  parseF64 : String → Option F64
  parseJson : String → Except String Json
  serialize : Json → String
  loadComponent : LockedComponent → Except RuntimeError WasmComponent
  loadTriggerComponent : LockedTriggerComponent → Except RuntimeError WasmComponent
  wasmExecute : WasmComponent → String → String → String → String → Nat → Except HostError String
  wasmHandle : WasmComponent → Event → Nat → Except HostError Status

-- ===========================================================================
-- Task execution (`crates/fuschia-runtime/src/task.rs`,
-- `crates/fuschia-task-host/src/executor.rs`)
-- ===========================================================================

/-- The result of one node's execution
(`crates/fuschia-runtime/src/result.rs`, `NodeResult`). -/
structure NodeResult where
  taskId : String
  nodeId : String
  input : Json
  resolvedInput : Json
  output : Json

/-- The result of a workflow invocation (`InvokeResult`). -/
structure InvokeResult where
  executionId : String
  nodeResults : List (String × NodeResult)

/-- Input to a task execution (`task.rs`, `TaskInput`). -/
structure TaskInput where
  taskId : String
  executionId : String
  nodeId : String
  input : Json
  resolvedInput : Json
  timeoutMs : Option Nat

/-- The epoch-deadline computation of `TaskExecutor::execute_inner`
(`task.rs` line 104) and `TriggerExecutor::execute_inner` (`trigger.rs`
line 79): `input.timeout_ms.map(|ms| ms / 10)`. -/
def epochDeadlineOfTimeout (timeoutMs : Option Nat) : Option Nat :=
  timeoutMs.map (fun ms => ms / 10)

/-- The value of Rust `u64::MAX`. -/
def u64Max : Nat := 2 ^ 64 - 1

/-- The deadline actually set on the wasmtime store
(`fuschia-task-host/src/executor.rs` line 39 and
`fuschia-trigger-host/src/executor.rs` line 37):
`epoch_deadline.unwrap_or(u64::MAX)`. -/
def resolveEpochDeadline (epochDeadline : Option Nat) : Nat :=
  epochDeadline.getD u64Max

/-- Execute one task component (`TaskExecutor::execute` via
`execute_inner` and `fuschia_task_host::execute_task`): serialize the
resolved input, derive the epoch deadline, call the guest `execute`
export, and parse its output string as JSON.  Note `serde_json::to_string`
of a `Value` cannot fail, so serialization is modelled total. -/
def TaskExecutor.execute (E : Ext) (component : WasmComponent) (input : TaskInput) :
    Except RuntimeError NodeResult :=
  let inputData := E.serialize input.resolvedInput
  let deadline := resolveEpochDeadline (epochDeadlineOfTimeout input.timeoutMs)
  match E.wasmExecute component input.executionId input.nodeId input.taskId
      inputData deadline with
  | .error e => .error (.componentExecution e)
  | .ok outStr =>
    match E.parseJson outStr with
    | .error e => .error (.invalidOutput ("invalid JSON: " ++ e))
    | .ok output =>
      .ok ⟨input.taskId, input.nodeId, input.input, input.resolvedInput, output⟩

-- ===========================================================================
-- Runtime (`crates/fuschia-runtime/src/runtime.rs`)
-- ===========================================================================

/-- Whether a node is a trigger node. -/
def Node.isTriggerNode (n : Node) : Bool :=
  match n.nodeType with
  | .trigger _ => true
  | _ => false

/-- All trigger-node ids (`Runtime::find_trigger_nodes`). -/
def findTriggerNodes (wf : Workflow) : List String :=
  keysOf (wf.nodes.filter (fun p => p.2.isTriggerNode))

/-- The entry-point check loop of `Runtime::validate_workflow`: every
entry point must resolve to a node and be a trigger. -/
def checkEntries (wf : Workflow) : List String → Except RuntimeError Unit
  | [] => .ok ()
  | id :: rest =>
    match lookupKV wf.nodes id with
    | none =>
      .error (.invalidGraph ("entry point " ++ id ++ " not found in nodes"))
    | some n =>
      if n.isTriggerNode then checkEntries wf rest
      else
        .error (.invalidGraph
          ("node " ++ id ++ " has no incoming edges but is not a trigger (orphan node)"))

/-- Validate the workflow graph (`Runtime::validate_workflow`): exactly one
trigger node, and every entry point is a trigger. -/
def validateWorkflow (wf : Workflow) : Except RuntimeError Unit :=
  let graph := wf.graph
  let triggerNodes := findTriggerNodes wf
  if triggerNodes.length ≠ 1 then
    .error (.invalidGraph ("workflow must have exactly one trigger, found " ++
      toString triggerNodes.length))
  else
    checkEntries wf graph.entryPoints

/-- Find ready nodes (`Runtime::find_ready_nodes`): not yet completed and
with every upstream node completed. -/
def findReadyNodes (wf : Workflow) (completed : List (String × NodeResult)) : List String :=
  let graph := wf.graph
  (keysOf wf.nodes).filter (fun id =>
    (lookupKV completed id).isNone &&
    (graph.upstream id).all (fun up => (lookupKV completed up).isSome))

/-- Gather upstream data for a node (`execute_ready_nodes` lines 509 to
512): outputs of completed upstream nodes, keyed by node id, collected
into a `HashMap` (duplicate upstream ids collapse). -/
def gatherUpstreamData (upstreamIds : List String)
    (completed : List (String × NodeResult)) : List (String × Json) :=
  upstreamIds.foldl (fun acc id =>
    match lookupKV completed id with
    | some r => insertKV acc id r.output
    | none => acc) []

/-- Execute a join node (`execute_join`): output is the input object. -/
def executeJoin (input : TaskInput) : NodeResult :=
  ⟨input.taskId, input.nodeId, input.input, input.resolvedInput, input.input⟩

/-- The per-node body of `Runtime::execute_ready_nodes`: look the node up,
gather upstream data, build the raw input, resolve and coerce inputs for
component nodes, load the component, and produce the spawned task's
result.  The outer `Except` is the synchronous part (errors abort the
whole batch with `?`); the inner `Except` is the spawned task's own
result. -/
def prepareAndRunNode (E : Ext) (wf : Workflow) (completed : List (String × NodeResult))
    (execId nodeId : String) : Except RuntimeError (Except RuntimeError NodeResult) :=
  let graph := wf.graph
  match lookupKV wf.nodes nodeId with
  | none => .error (.invalidGraph ("node " ++ nodeId ++ " not found in workflow"))
  | some node =>
    let upstreamIds := graph.upstream nodeId
    let isJoin := graph.isJoinPoint nodeId
    let upstreamData := gatherUpstreamData upstreamIds completed
    let input : Json :=
      if isJoin then .obj (toBTreeMap upstreamData)
      else if upstreamData.length = 1 then
        ((upstreamData.head?.map Prod.snd).getD .null)
      else .null
    match node.nodeType with
    | .component locked =>
      match resolveInputs E.render node.nodeId node.inputs upstreamData isJoin with
      | .error e => .error e
      | .ok resolvedStrings =>
        let schema := extractSchemaTypes locked.inputSchema
        match coerceInputs E.parseI64 E.parseF64 E.parseJson node.nodeId
            resolvedStrings schema with
        | .error e => .error e
        | .ok resolved =>
          match E.loadComponent locked with
          | .error e => .error e
          | .ok component =>
            .ok (TaskExecutor.execute E component
              ⟨"", execId, nodeId, input, resolved, node.timeoutMs⟩)
    | .join _ =>
      .ok (.ok (executeJoin ⟨"", execId, nodeId, input, input, node.timeoutMs⟩))
    | .trigger _ =>
      .ok (.error (.invalidGraph "trigger nodes should not be executed"))
    | .loop =>
      .ok (.error (.invalidGraph "loop nodes not yet implemented"))

/-- Spawn all ready nodes (`Runtime::execute_ready_nodes`), collecting one
spawned result per ready node; a synchronous error aborts the batch. -/
def executeReadyNodes (E : Ext) (wf : Workflow) (completed : List (String × NodeResult))
    (execId : String) :
    List String → Except RuntimeError (List (Except RuntimeError NodeResult))
  | [] => .ok []
  | id :: rest =>
    match prepareAndRunNode E wf completed execId id with
    | .error e => .error e
    | .ok r =>
      match executeReadyNodes E wf completed execId rest with
      | .error e => .error e
      | .ok rs => .ok (r :: rs)

/-- The result-processing loop of `Runtime::run_execution_loop` (lines 317
to 336): insert each successful result into the completed set; the first
error aborts (later results are never examined).  Join errors of spawned
tasks cannot occur in the pure model. -/
def processResults (completed : List (String × NodeResult)) :
    List (Except RuntimeError NodeResult) →
    Except RuntimeError (List (String × NodeResult))
  | [] => .ok completed
  | .error e :: _ => .error e
  | .ok nr :: rest => processResults (insertKV completed nr.nodeId nr) rest

/-- The main execution loop (`Runtime::run_execution_loop`): find ready
nodes, stop when none, otherwise run the batch, process results, repeat.
The Rust `loop` terminates because every continuing iteration completes at
least one previously uncompleted node; the model makes this explicit with
a structural bound, and `Runtime.invoke` passes `nodes.length + 1`, which
is never exhausted on any path that returns `Ok`. -/
def runExecutionLoop (E : Ext) (wf : Workflow) (execId : String) :
    Nat → List (String × NodeResult) → Except RuntimeError InvokeResult
  | 0, _ => .error (.invalidGraph "execution loop bound exceeded")
  | fuel + 1, completed =>
    let ready := findReadyNodes wf completed
    if ready.isEmpty then .ok ⟨execId, completed⟩
    else
      match executeReadyNodes E wf completed execId ready with
      | .error e => .error e
      | .ok results =>
        match processResults completed results with
        | .error e => .error e
        | .ok completed2 => runExecutionLoop E wf execId fuel completed2

/-- Result of trigger execution (`TriggerOutcome`): proceed with the graph
(`Continue`) or finish now (`ShortCircuit`). -/
inductive TriggerOutcome where
  | proceed (nr : NodeResult)
  | shortCircuit (nr : NodeResult)

/-- The event built for the trigger component (`execute_trigger` lines 371
to 389): Poll maps to `Poll`; Webhook and Manual map to a webhook request
with the serialized payload as body. -/
def eventForTrigger (E : Ext) (tt : TriggerType) (payload : Json) : Event :=
  match tt with
  | .poll _ => .poll
  | .webhook method => .webhook ⟨method, "", [], some (E.serialize payload)⟩
  | .manual => .webhook ⟨"POST", "", [], some (E.serialize payload)⟩

/-- Execute the trigger node (`Runtime::execute_trigger`).  Without a
component the payload passes through; with one, the guest `handle` export
is called and `Completed` data is parsed as JSON (falling back to the raw
string), while `Pending` short-circuits with a null output.  The empty
list cases model the `unwrap`/`unreachable` panics, which validation makes
unreachable. -/
def executeTrigger (E : Ext) (wf : Workflow) (_execId : String) (payload : Json) :
    Except RuntimeError TriggerOutcome :=
  match findTriggerNodes wf with
  | [] => .error (.invalidGraph "panic: no trigger node")
  | triggerId :: _ =>
    match lookupKV wf.nodes triggerId with
    | none => .error (.invalidGraph "panic: trigger node not found")
    | some node =>
      match node.nodeType with
      | .trigger lockedTrigger =>
        match lockedTrigger.component with
        | none =>
          .ok (.proceed ⟨"", triggerId, payload, .null, payload⟩)
        | some triggerComponent =>
          match E.loadTriggerComponent triggerComponent with
          | .error e => .error e
          | .ok component =>
            let event := eventForTrigger E lockedTrigger.triggerType payload
            let deadline := resolveEpochDeadline (epochDeadlineOfTimeout node.timeoutMs)
            match E.wasmHandle component event deadline with
            | .error e => .error (.componentExecution e)
            | .ok (.completed data) =>
              let output :=
                match E.parseJson data with
                | .ok v => v
                | .error _ => .str data
              .ok (.proceed ⟨"", triggerId, payload, .null, output⟩)
            | .ok .pending =>
              .ok (.shortCircuit ⟨"", triggerId, payload, .null, .null⟩)
      | _ => .error (.invalidGraph "panic: trigger node has wrong type")

/-- Execute the workflow (`Runtime::invoke`): validate, run the trigger,
then either short-circuit with the trigger's result alone or seed the
completed set with it and run the execution loop. -/
def Runtime.invoke (E : Ext) (wf : Workflow) (execId : String) (payload : Json) :
    Except RuntimeError InvokeResult :=
  match validateWorkflow wf with
  | .error e => .error e
  | .ok _ =>
    match executeTrigger E wf execId payload with
    | .error e => .error e
    | .ok (.shortCircuit nr) => .ok ⟨execId, [(nr.nodeId, nr)]⟩
    | .ok (.proceed nr) =>
      runExecutionLoop E wf execId (wf.nodes.length + 1) [(nr.nodeId, nr)]

-- ===========================================================================
-- Component caches (`crates/fuschia-workflow-runtime/src/cache.rs` and
-- `crates/fuschia-workflow-executor/src/cache.rs`)
-- ===========================================================================

/-- Cache key (`ComponentKey` in both cache modules). -/
structure ComponentKey where
  name : String
  version : String
deriving DecidableEq

/-- `ComponentCache::get_or_compile` of `fuschia-workflow-runtime`: read
lookup, else compile from file (`Component::from_file` is the
`compileFile` parameter) and insert under the write lock.  Returns the
result and the cache state after the call; on a compile error the message
is wrapped in `InvalidGraph` and the cache is left unchanged. -/
def getOrCompileWR (compileFile : String → Except String WasmComponent)
    (cache : List (ComponentKey × WasmComponent)) (key : ComponentKey)
    (wasmPath : String) :
    Except WRError WasmComponent × List (ComponentKey × WasmComponent) :=
  match lookupKV cache key with
  | some component => (.ok component, cache)
  | none =>
    match compileFile wasmPath with
    | .error e =>
      (.error (.invalidGraph ("failed to load component " ++ key.name ++ ": " ++ e)), cache)
    | .ok component => (.ok component, insertKV cache key component)

/-- `ComponentCache::get_or_compile` of `fuschia-workflow-executor`: same
two-phase lookup, but a compile error is wrapped in
`ComponentLoad{node_id, message}` (with the component name as node id) and
the cache is left unchanged. -/
def getOrCompileWE (compileFile : String → Except String WasmComponent)
    (cache : List (ComponentKey × WasmComponent)) (key : ComponentKey)
    (wasmPath : String) :
    Except ExecutionError WasmComponent × List (ComponentKey × WasmComponent) :=
  match lookupKV cache key with
  | some component => (.ok component, cache)
  | none =>
    match compileFile wasmPath with
    | .error e => (.error (.componentLoad key.name e), cache)
    | .ok component => (.ok component, insertKV cache key component)

-- ===========================================================================
-- Properties of the sorted-map model of serde_json::Map
-- ===========================================================================

theorem lookupKV_sortedInsertKV (m : List (String × Json)) (k : String) (v : Json)
    (k' : String) :
    lookupKV (sortedInsertKV m k v) k' = if k = k' then some v else lookupKV m k' := by
  induction m with
  | nil =>
    by_cases h : k = k' <;> simp [sortedInsertKV, lookupKV, h]
  | cons p rest ih =>
    obtain ⟨k0, w⟩ := p
    by_cases h0 : k = k0
    · subst h0
      by_cases h : k = k' <;> simp [sortedInsertKV, lookupKV, h]
    · simp only [sortedInsertKV, if_neg h0]
      by_cases hlt : k < k0
      · simp only [if_pos hlt]
        by_cases h : k = k'
        · subst h; simp [lookupKV, h0]
        · simp [lookupKV, h]
      · simp only [if_neg hlt]
        by_cases h1 : k0 = k'
        · subst h1
          have h : ¬ k = k0 := h0
          simp [lookupKV, h]
        · simp only [lookupKV, if_neg h1]
          exact ih

/-- Keys of a list are strictly sorted; the shape of a `BTreeMap`. -/
def KSorted (l : List (String × Json)) : Prop :=
  l.Pairwise (fun a b => a.1 < b.1)

theorem mem_keysOf_sortedInsertKV (m : List (String × Json)) (k : String) (v : Json)
    (k' : String) :
    k' ∈ keysOf (sortedInsertKV m k v) ↔ k' ∈ keysOf m ∨ k' = k := by
  induction m with
  | nil => simp [sortedInsertKV, eq_comm]
  | cons p rest ih =>
    obtain ⟨k0, w⟩ := p
    by_cases h0 : k = k0
    · subst h0
      simp only [sortedInsertKV, if_true, eq_self_iff_true, keysOf_cons, List.mem_cons]
      tauto
    · simp only [sortedInsertKV, if_neg h0]
      by_cases hlt : k < k0
      · simp only [if_pos hlt, keysOf_cons, List.mem_cons]
        tauto
      · simp only [if_neg hlt, keysOf_cons, List.mem_cons, ih]
        tauto

theorem KSorted_sortedInsertKV (m : List (String × Json)) (k : String) (v : Json)
    (h : KSorted m) : KSorted (sortedInsertKV m k v) := by
  induction m with
  | nil => simp [sortedInsertKV, KSorted]
  | cons p rest ih =>
    obtain ⟨k0, w⟩ := p
    rw [KSorted, List.pairwise_cons] at h
    by_cases h0 : k = k0
    · subst h0
      simp only [sortedInsertKV, if_true, eq_self_iff_true]
      rw [KSorted, List.pairwise_cons]
      exact h
    · simp only [sortedInsertKV, if_neg h0]
      by_cases hlt : k < k0
      · simp only [if_pos hlt]
        rw [KSorted, List.pairwise_cons]
        constructor
        · intro b hb
          rcases List.mem_cons.mp hb with hb | hb
          · rw [hb]; exact hlt
          · exact lt_trans hlt (h.1 b hb)
        · rw [List.pairwise_cons]
          exact h
      · have hgt : k0 < k := by
          rcases lt_trichotomy k k0 with hc | hc | hc
          · exact absurd hc hlt
          · exact absurd hc h0
          · exact hc
        simp only [if_neg hlt]
        rw [KSorted, List.pairwise_cons]
        constructor
        · intro b hb
          have hbk : b.1 ∈ keysOf (sortedInsertKV rest k v) :=
            List.mem_map_of_mem Prod.fst hb
          rcases (mem_keysOf_sortedInsertKV rest k v b.1).mp hbk with hm | hm
          · obtain ⟨q, hq, hq1⟩ := List.mem_map.mp hm
            calc k0 < q.1 := h.1 q hq
              _ = b.1 := hq1.symm ▸ rfl
          · rw [hm]; exact hgt
        · exact ih h.2

theorem KSorted_toBTreeMap (l : List (String × Json)) : KSorted (toBTreeMap l) := by
  suffices H : ∀ m, KSorted m →
      KSorted (l.foldl (fun m p => sortedInsertKV m p.1 p.2) m) by
    exact H [] (by simp [KSorted])
  induction l with
  | nil => exact fun m hm => hm
  | cons p rest ih =>
    intro m hm
    exact ih _ (KSorted_sortedInsertKV m p.1 p.2 hm)

theorem lookupKV_toBTreeMap (l : List (String × Json)) (hnd : (keysOf l).Nodup)
    (k : String) : lookupKV (toBTreeMap l) k = lookupKV l k := by
  suffices H : ∀ m, lookupKV (l.foldl (fun m p => sortedInsertKV m p.1 p.2) m) k =
      match lookupKV l k with
      | some v => some v
      | none => lookupKV m k by
    have := H []
    rw [toBTreeMap] at *
    rw [this]
    cases lookupKV l k <;> simp [lookupKV]
  induction l with
  | nil => intro m; simp [lookupKV]
  | cons p rest ih =>
    intro m
    obtain ⟨k0, v0⟩ := p
    simp only [keysOf_cons, List.nodup_cons] at hnd
    simp only [List.foldl_cons]
    rw [ih hnd.2]
    by_cases h : k0 = k
    · subst h
      rw [lookupKV_eq_none_of_not_mem hnd.1]
      simp [lookupKV, lookupKV_sortedInsertKV]
    · simp only [lookupKV, if_neg h]
      cases lookupKV rest k <;>
        simp [lookupKV_sortedInsertKV, h]

theorem KSorted_head_lt {p : String × Json} {t : List (String × Json)}
    (h : KSorted (p :: t)) : ∀ k ∈ keysOf t, p.1 < k := by
  rw [KSorted, List.pairwise_cons] at h
  intro k hk
  obtain ⟨q, hq, hq1⟩ := List.mem_map.mp hk
  calc p.1 < q.1 := h.1 q hq
    _ = k := hq1

theorem KSorted_ext : ∀ l1 l2 : List (String × Json), KSorted l1 → KSorted l2 →
    (∀ k, lookupKV l1 k = lookupKV l2 k) → l1 = l2 := by
  intro l1
  induction l1 with
  | nil =>
    intro l2 _ _ hl
    cases l2 with
    | nil => rfl
    | cons q t2 =>
      have := hl q.1
      simp [lookupKV] at this
  | cons p t1 ih =>
    intro l2 h1 h2 hl
    cases l2 with
    | nil =>
      have := hl p.1
      simp [lookupKV] at this
    | cons q t2 =>
      obtain ⟨k1, v1⟩ := p
      obtain ⟨k2, v2⟩ := q
      have hmem1 : lookupKV ((k2, v2) :: t2) k1 = some v1 := by
        rw [← hl k1]; simp [lookupKV]
      have hmem2 : lookupKV ((k1, v1) :: t1) k2 = some v2 := by
        rw [hl k2]; simp [lookupKV]
      have hk1mem : k1 ∈ keysOf ((k2, v2) :: t2) :=
        (lookupKV_isSome_iff _ k1).mp (by simp [hmem1])
      have hk2mem : k2 ∈ keysOf ((k1, v1) :: t1) :=
        (lookupKV_isSome_iff _ k2).mp (by simp [hmem2])
      have hkey : k1 = k2 := by
        rcases List.mem_cons.mp hk1mem with hc | hc
        · exact hc
        · rcases List.mem_cons.mp hk2mem with hd | hd
          · exact hd.symm
          · have hlt1 : k2 < k1 := KSorted_head_lt h2 k1 hc
            have hlt2 : k1 < k2 := KSorted_head_lt h1 k2 hd
            exact absurd (lt_trans hlt1 hlt2) (lt_irrefl k2)
      subst hkey
      have hval : v1 = v2 := by
        have := hmem2
        simp [lookupKV] at this
        exact this
      subst hval
      have ht : t1 = t2 := by
        refine ih t2 ?_ ?_ ?_
        · rw [KSorted, List.pairwise_cons] at h1; exact h1.2
        · rw [KSorted, List.pairwise_cons] at h2; exact h2.2
        · intro k
          by_cases hk : k1 = k
          · subst hk
            have hn1 : k1 ∉ keysOf t1 := fun hm =>
              absurd (KSorted_head_lt h1 k1 hm) (lt_irrefl k1)
            have hn2 : k1 ∉ keysOf t2 := fun hm =>
              absurd (KSorted_head_lt h2 k1 hm) (lt_irrefl k1)
            rw [lookupKV_eq_none_of_not_mem hn1, lookupKV_eq_none_of_not_mem hn2]
          · have := hl k
            simpa [lookupKV, hk] using this
      rw [ht]

theorem lookupKV_perm {α : Type} {l1 l2 : List (String × α)} (h : l1.Perm l2) :
    (keysOf l1).Nodup → ∀ k, lookupKV l1 k = lookupKV l2 k := by
  induction h with
  | nil => intro _ k; rfl
  | cons x h ih =>
    intro hnd k
    obtain ⟨kx, vx⟩ := x
    simp only [keysOf_cons, List.nodup_cons] at hnd
    by_cases hk : kx = k
    · simp only [lookupKV, if_pos hk]
    · simp only [lookupKV, if_neg hk]
      exact ih hnd.2 k
  | swap x y l =>
    intro hnd k
    obtain ⟨ky, vy⟩ := y
    obtain ⟨kx, vx⟩ := x
    simp only [keysOf_cons, List.nodup_cons, List.mem_cons] at hnd
    have hne : ky ≠ kx := fun hh => hnd.1 (Or.inl hh)
    by_cases h1 : ky = k
    · subst h1
      have hxy : ¬ kx = ky := fun hh => hne hh.symm
      simp [lookupKV, hxy]
    · by_cases h2 : kx = k
      · subst h2
        simp [lookupKV, h1]
      · simp [lookupKV, h1, h2]
  | trans h1 h2 ih1 ih2 =>
    intro hnd k
    have hnd2 : (keysOf _).Nodup := ((h1.map Prod.fst).nodup_iff).mp hnd
    rw [ih1 hnd k, ih2 hnd2 k]

theorem exists_min_rank : ∀ (l : List String) (f : String → Nat), l ≠ [] →
    ∃ a ∈ l, ∀ b ∈ l, f a ≤ f b := by
  intro l f
  induction l with
  | nil => intro h; exact absurd rfl h
  | cons x rest ih =>
    intro _
    by_cases hr : rest = []
    · subst hr
      refine ⟨x, List.mem_cons_self x [], fun b hb => ?_⟩
      rcases List.mem_cons.mp hb with hb | hb
      · rw [hb]
      · simp at hb
    · obtain ⟨a, ha, hmin⟩ := ih hr
      by_cases hfa : f x ≤ f a
      · refine ⟨x, List.mem_cons_self x rest, fun b hb => ?_⟩
        rcases List.mem_cons.mp hb with hb | hb
        · rw [hb]
        · exact le_trans hfa (hmin b hb)
      · refine ⟨a, List.mem_cons_of_mem x ha, fun b hb => ?_⟩
        rcases List.mem_cons.mp hb with hb | hb
        · rw [hb]; exact le_of_lt (Nat.lt_of_not_le hfa)
        · exact hmin b hb

-- ===========================================================================
-- Helper characterizations of the runtime functions
-- ===========================================================================

theorem checkEntries_ok_iff (wf : Workflow) (ids : List String) :
    checkEntries wf ids = .ok () ↔
      ∀ id ∈ ids, ∃ n, lookupKV wf.nodes id = some n ∧ n.isTriggerNode = true := by
  induction ids with
  | nil => simp [checkEntries]
  | cons id rest ih =>
    cases hl : lookupKV wf.nodes id with
    | none => simp [checkEntries, hl]
    | some n =>
      by_cases ht : n.isTriggerNode = true
      · simp only [checkEntries, hl, ht, if_true, ih, List.mem_cons]
        constructor
        · intro hall
          intro x hx
          rcases hx with hx | hx
          · subst hx; exact ⟨n, hl, ht⟩
          · exact hall x hx
        · intro hall x hx
          exact hall x (Or.inr hx)
      · simp only [checkEntries, hl, if_neg ht]
        constructor
        · intro hcontra
          exact absurd hcontra (by simp)
        · intro hall
          obtain ⟨n2, hl2, ht2⟩ := hall id (List.mem_cons_self id rest)
          rw [hl] at hl2
          cases hl2
          exact absurd ht2 ht

theorem checkEntries_error_shape (wf : Workflow) (ids : List String) (e : RuntimeError)
    (h : checkEntries wf ids = .error e) : ∃ msg, e = .invalidGraph msg := by
  induction ids with
  | nil => simp [checkEntries] at h
  | cons id rest ih =>
    cases hl : lookupKV wf.nodes id with
    | none =>
      rw [checkEntries, hl] at h
      exact ⟨_, (Except.error.injEq _ _).mp h.symm⟩
    | some n =>
      by_cases ht : n.isTriggerNode = true
      · rw [checkEntries, hl] at h
        simp only [ht, if_true] at h
        exact ih h
      · rw [checkEntries, hl] at h
        simp only [ht, if_false, Bool.false_eq_true] at h
        exact ⟨_, (Except.error.injEq _ _).mp h.symm⟩

theorem validateWorkflow_ok_iff (wf : Workflow) :
    validateWorkflow wf = .ok () ↔
      ((findTriggerNodes wf).length = 1 ∧
        ∀ id ∈ wf.graph.entryPoints,
          ∃ n, lookupKV wf.nodes id = some n ∧ n.isTriggerNode = true) := by
  by_cases h : (findTriggerNodes wf).length = 1
  · simp only [validateWorkflow, h, if_neg, ne_eq, not_true_eq_false, not_not]
    simp only [if_false]
    rw [checkEntries_ok_iff]
    simp [h]
  · simp only [validateWorkflow]
    rw [if_pos h]
    simp [h]

theorem validateWorkflow_error_shape (wf : Workflow) (e : RuntimeError)
    (h : validateWorkflow wf = .error e) : ∃ msg, e = .invalidGraph msg := by
  by_cases hlen : (findTriggerNodes wf).length = 1
  · rw [validateWorkflow, if_neg (by simp [hlen])] at h
    exact checkEntries_error_shape wf _ e h
  · rw [validateWorkflow, if_pos hlen] at h
    exact ⟨_, (Except.error.injEq _ _).mp h.symm⟩

theorem invoke_validate_error (E : Ext) (wf : Workflow) (execId : String) (payload : Json)
    (e : RuntimeError) (h : validateWorkflow wf = .error e) :
    Runtime.invoke E wf execId payload = .error e := by
  rw [Runtime.invoke, h]

theorem mem_upstream_edge (wf : Workflow) (p n : String)
    (h : p ∈ wf.graph.upstream n) : (p, n) ∈ wf.edges := by
  rw [Workflow.graph, Graph.upstream_new] at h
  obtain ⟨e, he, he1⟩ := List.mem_map.mp h
  have he2 : e.2 = n := by
    have := (List.mem_filter.mp he).2
    simpa using this
  have : e = (p, n) := Prod.ext he1 he2
  rw [← this]
  exact (List.mem_filter.mp he).1

theorem mem_findReadyNodes_iff (wf : Workflow) (completed : List (String × NodeResult))
    (id : String) :
    id ∈ findReadyNodes wf completed ↔
      id ∈ keysOf wf.nodes ∧ lookupKV completed id = none ∧
        ∀ up ∈ wf.graph.upstream id, (lookupKV completed up).isSome := by
  rw [findReadyNodes, List.mem_filter]
  constructor
  · rintro ⟨hm, hcond⟩
    have hcond' := (Bool.and_eq_true _ _).mp hcond
    refine ⟨hm, Option.isNone_iff_eq_none.mp hcond'.1, fun up hup => ?_⟩
    exact List.all_eq_true.mp hcond'.2 up hup
  · rintro ⟨hm, hnone, hall⟩
    refine ⟨hm, (Bool.and_eq_true _ _).mpr ⟨by simp [hnone], ?_⟩⟩
    exact List.all_eq_true.mpr (fun up hup => hall up hup)

theorem findTriggerNodes_sub (wf : Workflow) (id : String)
    (h : id ∈ findTriggerNodes wf) : id ∈ keysOf wf.nodes := by
  rw [findTriggerNodes] at h
  obtain ⟨p, hp, hp1⟩ := List.mem_map.mp h
  exact hp1 ▸ List.mem_map_of_mem Prod.fst (List.mem_filter.mp hp).1

theorem mem_findTriggerNodes_of_lookup (wf : Workflow) (id : String) (n : Node)
    (hnd : (keysOf wf.nodes).Nodup)
    (hl : lookupKV wf.nodes id = some n) (ht : n.isTriggerNode = true) :
    id ∈ findTriggerNodes wf := by
  have hmem : (id, n) ∈ wf.nodes := (lookupKV_eq_some_iff_mem hnd id n).mp hl
  rw [findTriggerNodes]
  exact List.mem_map_of_mem Prod.fst (List.mem_filter.mpr ⟨hmem, by simpa using ht⟩)

theorem taskExecute_ok_ids (E : Ext) (c : WasmComponent) (inp : TaskInput)
    (nr : NodeResult) (h : TaskExecutor.execute E c inp = .ok nr) :
    nr.nodeId = inp.nodeId := by
  rw [TaskExecutor.execute] at h
  cases hw : E.wasmExecute c inp.executionId inp.nodeId inp.taskId
      (E.serialize inp.resolvedInput)
      (resolveEpochDeadline (epochDeadlineOfTimeout inp.timeoutMs)) with
  | error e => simp [hw] at h
  | ok outStr =>
    simp only [hw] at h
    cases hp : E.parseJson outStr with
    | error e => simp [hp] at h
    | ok output =>
      simp only [hp] at h
      cases h
      rfl

theorem prepareAndRunNode_ok_nodeId (E : Ext) (wf : Workflow)
    (completed : List (String × NodeResult)) (execId nodeId : String)
    (nr : NodeResult) (h : prepareAndRunNode E wf completed execId nodeId = .ok (.ok nr)) :
    nr.nodeId = nodeId := by
  rw [prepareAndRunNode] at h
  cases hl : lookupKV wf.nodes nodeId with
  | none => simp [hl] at h
  | some node =>
    simp only [hl] at h
    cases hnt : node.nodeType with
    | component locked =>
      simp only [hnt] at h
      cases hr : resolveInputs E.render node.nodeId node.inputs
          (gatherUpstreamData (wf.graph.upstream nodeId) completed)
          (wf.graph.isJoinPoint nodeId) with
      | error e => simp [hr] at h
      | ok resolvedStrings =>
        simp only [hr] at h
        cases hc : coerceInputs E.parseI64 E.parseF64 E.parseJson node.nodeId
            resolvedStrings (extractSchemaTypes locked.inputSchema) with
        | error e => simp [hc] at h
        | ok resolved =>
          simp only [hc] at h
          cases hlc : E.loadComponent locked with
          | error e => simp [hlc] at h
          | ok component =>
            simp only [hlc] at h
            have hx := (Except.ok.injEq _ _).mp h
            exact taskExecute_ok_ids E _ _ nr hx
    | join s =>
      simp only [hnt] at h
      have hx := (Except.ok.injEq _ _).mp h
      have hy := (Except.ok.injEq _ _).mp hx
      rw [← hy]
      rfl
    | trigger t =>
      simp only [hnt] at h
      exact absurd ((Except.ok.injEq _ _).mp h) (by simp)
    | loop =>
      simp only [hnt] at h
      exact absurd ((Except.ok.injEq _ _).mp h) (by simp)

theorem executeReadyNodes_ok_mem (E : Ext) (wf : Workflow)
    (completed : List (String × NodeResult)) (execId : String) :
    ∀ (ids : List String) (rs : List (Except RuntimeError NodeResult)),
      executeReadyNodes E wf completed execId ids = .ok rs →
      ∀ r ∈ rs, ∀ nr, r = .ok nr → nr.nodeId ∈ ids := by
  intro ids
  induction ids with
  | nil =>
    intro rs h r hr nr hnr
    rw [executeReadyNodes] at h
    cases h
    simp at hr
  | cons id rest ih =>
    intro rs h r hr nr hnr
    rw [executeReadyNodes] at h
    cases hp : prepareAndRunNode E wf completed execId id with
    | error e => simp [hp] at h
    | ok r0 =>
      simp only [hp] at h
      cases he : executeReadyNodes E wf completed execId rest with
      | error e => simp [he] at h
      | ok rs0 =>
        simp only [he] at h
        cases h
        rcases List.mem_cons.mp hr with hr | hr
        · subst hr
          subst hnr
          exact List.mem_cons.mpr
            (Or.inl (prepareAndRunNode_ok_nodeId E wf completed execId id nr hp))
        · exact List.mem_cons.mpr (Or.inr (ih rs0 he r hr nr hnr))

theorem processResults_ok_keys (rs : List (Except RuntimeError NodeResult)) :
    ∀ (completed completed2 : List (String × NodeResult)),
      processResults completed rs = .ok completed2 →
      ∀ k ∈ keysOf completed2,
        k ∈ keysOf completed ∨ ∃ nr, (Except.ok nr) ∈ rs ∧ nr.nodeId = k := by
  induction rs with
  | nil =>
    intro c c2 h k hk
    rw [processResults] at h
    cases h
    exact Or.inl hk
  | cons r rest ih =>
    intro c c2 h k hk
    cases r with
    | error e => rw [processResults] at h; exact absurd h (by simp)
    | ok nr =>
      rw [processResults] at h
      rcases ih _ _ h k hk with hm | ⟨nr2, hnr2, hid⟩
      · rcases (mem_keysOf_insertKV c nr.nodeId k nr).mp hm with hm | hm
        · exact Or.inl hm
        · exact Or.inr ⟨nr, List.mem_cons_self _ _, hm.symm⟩
      · exact Or.inr ⟨nr2, List.mem_cons_of_mem _ hnr2, hid⟩

theorem processResults_ok_mono (rs : List (Except RuntimeError NodeResult)) :
    ∀ (completed completed2 : List (String × NodeResult)),
      processResults completed rs = .ok completed2 →
      ∀ k ∈ keysOf completed, k ∈ keysOf completed2 := by
  induction rs with
  | nil =>
    intro c c2 h k hk
    rw [processResults] at h
    cases h
    exact hk
  | cons r rest ih =>
    intro c c2 h k hk
    cases r with
    | error e => rw [processResults] at h; exact absurd h (by simp)
    | ok nr =>
      rw [processResults] at h
      exact ih _ _ h k ((mem_keysOf_insertKV c nr.nodeId k nr).mpr (Or.inl hk))

theorem processResults_ok_nodup (rs : List (Except RuntimeError NodeResult)) :
    ∀ (completed completed2 : List (String × NodeResult)),
      processResults completed rs = .ok completed2 →
      (keysOf completed).Nodup → (keysOf completed2).Nodup := by
  induction rs with
  | nil =>
    intro c c2 h hnd
    rw [processResults] at h
    cases h
    exact hnd
  | cons r rest ih =>
    intro c c2 h hnd
    cases r with
    | error e => rw [processResults] at h; exact absurd h (by simp)
    | ok nr =>
      rw [processResults] at h
      exact ih _ _ h (keysOf_insertKV_nodup c nr.nodeId nr hnd)

theorem executeTrigger_proceed_nodeId (E : Ext) (wf : Workflow) (execId : String)
    (payload : Json) (nr : NodeResult)
    (h : executeTrigger E wf execId payload = .ok (.proceed nr)) :
    ∃ rest, findTriggerNodes wf = nr.nodeId :: rest := by
  rw [executeTrigger] at h
  cases hft : findTriggerNodes wf with
  | nil => simp [hft] at h
  | cons tid rest =>
    simp only [hft] at h
    refine ⟨rest, ?_⟩
    cases hl : lookupKV wf.nodes tid with
    | none => simp [hl] at h
    | some node =>
      simp only [hl] at h
      cases hnt : node.nodeType with
      | trigger lockedTrigger =>
        simp only [hnt] at h
        cases hc : lockedTrigger.component with
        | none =>
          simp only [hc] at h
          have hx := (Except.ok.injEq _ _).mp h
          cases hx
          rfl
        | some triggerComponent =>
          simp only [hc] at h
          cases hlc : E.loadTriggerComponent triggerComponent with
          | error e => simp [hlc] at h
          | ok component =>
            simp only [hlc] at h
            cases hw : E.wasmHandle component
                (eventForTrigger E lockedTrigger.triggerType payload)
                (resolveEpochDeadline (epochDeadlineOfTimeout node.timeoutMs)) with
            | error e => simp [hw] at h
            | ok st =>
              simp only [hw] at h
              cases st with
              | completed data =>
                have hx := (Except.ok.injEq _ _).mp h
                cases hx
                rfl
              | pending =>
                exact absurd ((Except.ok.injEq _ _).mp h) (by simp)
      | component c => simp [hnt] at h
      | join s => simp [hnt] at h
      | loop => simp [hnt] at h

/-- Completeness of the execution loop: starting from a completed set whose
keys are node ids and that contains every entry point, if the loop returns
`Ok` then the completed keys are exactly the workflow's node ids (one entry
each).  Acyclicity is given by a rank function on node ids that strictly
increases along edges, and every edge source must be a node key. -/
theorem runLoop_ok_complete (E : Ext) (wf : Workflow) (execId : String)
    (rank : String → Nat)
    (hrank : ∀ e ∈ wf.edges, rank e.1 < rank e.2)
    (hclosed : ∀ e ∈ wf.edges, e.1 ∈ wf.nodeIds) :
    ∀ (fuel : Nat) (completed : List (String × NodeResult)) (res : InvokeResult),
      (∀ k ∈ keysOf completed, k ∈ wf.nodeIds) →
      (∀ id ∈ wf.graph.entryPoints, id ∈ keysOf completed) →
      (keysOf completed).Nodup →
      runExecutionLoop E wf execId fuel completed = .ok res →
      ((keysOf res.nodeResults).Nodup ∧
        ∀ id, id ∈ keysOf res.nodeResults ↔ id ∈ wf.nodeIds) := by
  intro fuel
  induction fuel with
  | zero =>
    intro completed res _ _ _ h
    simp [runExecutionLoop] at h
  | succ fuel ih =>
    intro completed res hsub hentry hnd h
    rw [runExecutionLoop] at h
    by_cases hready : (findReadyNodes wf completed).isEmpty = true
    · rw [if_pos hready] at h
      have hres : res = ⟨execId, completed⟩ := ((Except.ok.injEq _ _).mp h).symm
      subst hres
      refine ⟨hnd, fun id => ⟨fun hm => hsub id hm, fun hm => ?_⟩⟩
      by_contra hno
      have hempty : findReadyNodes wf completed = [] := List.isEmpty_iff.mp hready
      have hSne : wf.nodeIds.filter (fun x => decide (x ∉ keysOf completed)) ≠ [] := by
        intro hnil
        have : id ∈ wf.nodeIds.filter (fun x => decide (x ∉ keysOf completed)) :=
          List.mem_filter.mpr ⟨hm, by simpa using hno⟩
        rw [hnil] at this
        simp at this
      obtain ⟨u, huS, humin⟩ :=
        exists_min_rank (wf.nodeIds.filter (fun x => decide (x ∉ keysOf completed))) rank hSne
      have huN : u ∈ wf.nodeIds := (List.mem_filter.mp huS).1
      have huC : u ∉ keysOf completed := by
        have := (List.mem_filter.mp huS).2
        simpa using this
      have hnotready : u ∉ findReadyNodes wf completed := by
        rw [hempty]; simp
      have hnotall : ¬ ∀ up ∈ wf.graph.upstream u, (lookupKV completed up).isSome := by
        intro hall
        exact hnotready ((mem_findReadyNodes_iff wf completed u).mpr
          ⟨huN, lookupKV_eq_none_of_not_mem huC, hall⟩)
      push_neg at hnotall
      obtain ⟨up, hup, hupnone⟩ := hnotall
      have hedge : (up, u) ∈ wf.edges := mem_upstream_edge wf up u hup
      have hupN : up ∈ wf.nodeIds := hclosed (up, u) hedge
      have hupC : up ∉ keysOf completed := by
        intro hc
        exact hupnone ((lookupKV_isSome_iff completed up).mpr hc)
      have hupS : up ∈ wf.nodeIds.filter (fun x => decide (x ∉ keysOf completed)) :=
        List.mem_filter.mpr ⟨hupN, by simpa using hupC⟩
      have h1 : rank u ≤ rank up := humin up hupS
      have h2 : rank up < rank u := hrank (up, u) hedge
      exact absurd (lt_of_le_of_lt h1 h2) (lt_irrefl (rank u))
    · rw [if_neg hready] at h
      cases hexec : executeReadyNodes E wf completed execId (findReadyNodes wf completed) with
      | error e => simp [hexec] at h
      | ok results =>
        simp only [hexec] at h
        cases hproc : processResults completed results with
        | error e => simp [hproc] at h
        | ok completed2 =>
          simp only [hproc] at h
          refine ih completed2 res ?_ ?_ ?_ h
          · intro k hk
            rcases processResults_ok_keys results completed completed2 hproc k hk with
              hm | ⟨nr, hnr, hid⟩
            · exact hsub k hm
            · have hmem : nr.nodeId ∈ findReadyNodes wf completed :=
                executeReadyNodes_ok_mem E wf completed execId _ results hexec _ hnr nr rfl
              rw [hid] at hmem
              exact ((mem_findReadyNodes_iff wf completed k).mp hmem).1
          · intro id hid
            exact processResults_ok_mono results completed completed2 hproc id (hentry id hid)
          · exact processResults_ok_nodup results completed completed2 hproc hnd

-- ===========================================================================
-- Concrete fixtures for witnesses and counterexamples
-- ===========================================================================

/-- An external world whose task components fail and whose trigger
components return Pending; templates render to themselves. -/
def extBoom : Ext := {
  render := fun t _ => .ok t,
  parseI64 := fun _ => none,
  parseF64 := fun _ => none,
  parseJson := fun _ => .error "no",
  serialize := fun _ => "",
  loadComponent := fun _ => .ok ⟨"c"⟩,
  loadTriggerComponent := fun _ => .ok ⟨"tc"⟩,
  wasmExecute := fun _ _ _ _ _ _ => .error (.componentError "boom"),
  wasmHandle := fun _ _ _ => .ok .pending }

/-- An external world whose task components succeed with the output `\x7b\x7d`
(the empty JSON object). -/
def extOk : Ext := {
  render := fun t _ => .ok t,
  parseI64 := fun _ => none,
  parseF64 := fun _ => none,
  parseJson := fun s => if s = "\x7b\x7d" then .ok (.obj []) else .error "bad",
  serialize := fun _ => "",
  loadComponent := fun _ => .ok ⟨"c"⟩,
  loadTriggerComponent := fun _ => .ok ⟨"tc"⟩,
  wasmExecute := fun _ _ _ _ _ _ => .ok "\x7b\x7d",
  wasmHandle := fun _ _ _ => .ok .pending }

/-- A trigger node without a trigger component. -/
def trigNode : Node := ⟨"t", .trigger ⟨.manual, none⟩, [], none, none, false⟩

/-- A component node with no inputs and an empty schema. -/
def compNode (id : String) : Node :=
  ⟨id, .component ⟨"comp", "1", "d", "task", Json.obj []⟩, [], none, none, false⟩

/-- The trigger node's pass-through result for a null payload. -/
def nrT : NodeResult := ⟨"", "t", Json.null, Json.null, Json.null⟩

/-- The result of `compNode "a"` under `extOk` after the trigger. -/
def nrA : NodeResult := ⟨"", "a", Json.null, Json.obj [], Json.obj []⟩

/-- A workflow whose two component nodes form a cycle `a -> b -> a` below
the trigger. -/
def wfCyc : Workflow :=
  ⟨"w", "w", [("t", trigNode), ("a", compNode "a"), ("b", compNode "b")],
   [("t", "a"), ("b", "a"), ("a", "b")], none, none⟩

/-- A workflow with an edge whose target `ghost` is not in the node map. -/
def wfDangling : Workflow :=
  ⟨"w", "w", [("t", trigNode)], [("t", "ghost")], none, none⟩

/-- A linear workflow `t -> a`. -/
def wfLin : Workflow :=
  ⟨"w", "w", [("t", trigNode), ("a", compNode "a")], [("t", "a")], none, none⟩

/-- A workflow with two trigger nodes. -/
def wfTwoTrig : Workflow :=
  ⟨"w", "w", [("t1", trigNode), ("t2", ⟨"t2", .trigger ⟨.manual, none⟩, [], none, none, false⟩)],
   [], none, none⟩

/-- A locked trigger component reference. -/
def tcRef : LockedTriggerComponent := ⟨"trig", "1", "d", "handle", .obj []⟩

/-- A trigger node carrying a trigger component. -/
def trigCompNode : Node := ⟨"t", .trigger ⟨.manual, some tcRef⟩, [], none, none, false⟩

/-- A one-node workflow whose trigger has a component. -/
def wfTrigComp : Workflow := ⟨"w", "w", [("t", trigCompNode)], [], none, none⟩

/-- A rank function witnessing acyclicity of `wfLin`. -/
def rankLin : String → Nat := fun id => if id = "t" then 0 else 1

-- ===========================================================================
-- C2: validator contract
-- ===========================================================================

/-- C2: corrected.  The validator run at the start of `invoke` fails with
`InvalidGraph` exactly when the trigger count is not one or some entry
point is not a trigger node, and a validation error fails the invocation
before any node executes; edge endpoints absent from the node mapping are
NOT checked (see the counterexample). -/
theorem claimC2 (wf : Workflow) :
    (validateWorkflow wf = .ok () ↔
      ((findTriggerNodes wf).length = 1 ∧
        ∀ id ∈ wf.graph.entryPoints,
          ∃ n, lookupKV wf.nodes id = some n ∧ n.isTriggerNode = true)) ∧
    (∀ e, validateWorkflow wf = .error e → ∃ msg, e = .invalidGraph msg) ∧
    (∀ (E : Ext) (execId : String) (payload : Json) (e : RuntimeError),
      validateWorkflow wf = .error e →
      Runtime.invoke E wf execId payload = .error e) :=
  ⟨validateWorkflow_ok_iff wf, fun e he => validateWorkflow_error_shape wf e he,
    fun E execId payload e he => invoke_validate_error E wf execId payload e he⟩

/-- C2 counterexample: in `wfDangling` the edge `("t", "ghost")` has a
target outside the node mapping, yet the validator accepts the workflow,
refuting part (c) of the claim. -/
theorem claimC2_counterexample :
    validateWorkflow wfDangling = .ok () ∧
    ("t", "ghost") ∈ wfDangling.edges ∧
    lookupKV wfDangling.nodes "ghost" = none :=
  ⟨rfl, by decide, rfl⟩

/-- C2 witness: a two-trigger workflow fails validation and the invocation
returns that error. -/
theorem claimC2_witness :
    Runtime.invoke extBoom wfTwoTrig "e" Json.null =
      .error (.invalidGraph ("workflow must have exactly one trigger, found 2")) :=
  (claimC2 wfTwoTrig).2.2 extBoom "e" Json.null _ rfl

-- ===========================================================================
-- C4: epoch deadline derivation
-- ===========================================================================

/-- Modelled from the spec: the "effectively unbounded deadline" the spec
promises for a missing or zero timeout is the high default the embedder
code uses to avoid an immediate interrupt, `u64::MAX`. -/
def effectivelyUnboundedDeadline : Nat := u64Max

/-- C4: corrected.  The deadline handed to the sandbox is `timeout_ms / 10`
whenever a timeout is present (including zero), and `u64::MAX` only when
it is absent; a zero timeout therefore yields deadline 0, not an
effectively unbounded one. -/
theorem claimC4 :
    (∀ ms : Nat, resolveEpochDeadline (epochDeadlineOfTimeout (some ms)) = ms / 10) ∧
    resolveEpochDeadline (epochDeadlineOfTimeout none) = u64Max ∧
    resolveEpochDeadline (epochDeadlineOfTimeout (some 0)) = 0 :=
  ⟨fun _ => rfl, rfl, rfl⟩

/-- C4 counterexample: a node with `timeout_ms = 0` gets epoch deadline 0
(the minimum possible, interruptible at the first tick), not the
effectively unbounded deadline the claim promises for it. -/
theorem claimC4_counterexample :
    resolveEpochDeadline (epochDeadlineOfTimeout (some 0)) = 0 ∧
    resolveEpochDeadline (epochDeadlineOfTimeout none) = effectivelyUnboundedDeadline ∧
    ¬ resolveEpochDeadline (epochDeadlineOfTimeout (some 0)) = effectivelyUnboundedDeadline :=
  ⟨rfl, rfl, by decide⟩

-- ===========================================================================
-- C8: component cache failure semantics
-- ===========================================================================

/-- C8: corrected.  On a cache miss with a failing compile, both cache
iterations leave the cache unchanged (so a later lookup still misses), but
only the `fuschia-workflow-executor` cache reports
`ComponentLoad{node_id, message}`; the `fuschia-workflow-runtime` cache
wraps the message in `InvalidGraph`. -/
theorem claimC8 (compileFile : String → Except String WasmComponent)
    (cache : List (ComponentKey × WasmComponent)) (key : ComponentKey)
    (wasmPath msg : String)
    (hmiss : lookupKV cache key = none)
    (hfail : compileFile wasmPath = .error msg) :
    getOrCompileWE compileFile cache key wasmPath =
      (.error (.componentLoad key.name msg), cache) ∧
    getOrCompileWR compileFile cache key wasmPath =
      (.error (.invalidGraph ("failed to load component " ++ key.name ++ ": " ++ msg)),
        cache) ∧
    lookupKV (getOrCompileWE compileFile cache key wasmPath).2 key = none ∧
    lookupKV (getOrCompileWR compileFile cache key wasmPath).2 key = none := by
  refine ⟨?_, ?_, ?_, ?_⟩ <;>
    simp [getOrCompileWE, getOrCompileWR, hmiss, hfail]

/-- C8 counterexample: the `fuschia-workflow-runtime` cache reports a
failed compile as `InvalidGraph` (its error enum has no component-load
kind at all), not as `ComponentLoad{node_id, message}`. -/
theorem claimC8_counterexample :
    getOrCompileWR (fun _ => .error "compile failed") [] ⟨"comp", "1.0.0"⟩ "p" =
      (.error (.invalidGraph "failed to load component comp: compile failed"), []) :=
  rfl

/-- C8 witness: the executor cache at a concrete missed key and failing
compile. -/
theorem claimC8_witness :
    getOrCompileWE (fun _ => .error "compile failed") [] ⟨"comp", "1.0.0"⟩ "p" =
      (.error (.componentLoad "comp" "compile failed"), []) :=
  (claimC8 (fun _ => .error "compile failed") [] ⟨"comp", "1.0.0"⟩ "p"
    "compile failed" rfl rfl).1

-- ===========================================================================
-- C3: first-failure abort
-- ===========================================================================

theorem processResults_append_error (e : RuntimeError)
    (post : List (Except RuntimeError NodeResult)) :
    ∀ (pre : List (Except RuntimeError NodeResult))
      (completed : List (String × NodeResult)),
      (∀ r ∈ pre, ∃ nr, r = .ok nr) →
      processResults completed (pre ++ .error e :: post) = .error e := by
  intro pre
  induction pre with
  | nil => intro completed _; rfl
  | cons r rest ih =>
    intro completed hpre
    obtain ⟨nr, hnr⟩ := hpre r (List.mem_cons_self r rest)
    subst hnr
    rw [List.cons_append, processResults]
    exact ih _ (fun x hx => hpre x (List.mem_cons_of_mem _ hx))

/-- C3: confirmed.  When the batch for the current ready set yields the
results `pre ++ [error e] ++ post` with every result in `pre` successful,
the execution loop returns exactly that error, and the results after the
failure are discarded: processing does not depend on them. -/
theorem claimC3 (E : Ext) (wf : Workflow) (execId : String)
    (completed : List (String × NodeResult)) (fuel : Nat)
    (pre post : List (Except RuntimeError NodeResult)) (e : RuntimeError)
    (hready : findReadyNodes wf completed ≠ [])
    (hexec : executeReadyNodes E wf completed execId (findReadyNodes wf completed) =
      .ok (pre ++ .error e :: post))
    (hpre : ∀ r ∈ pre, ∃ nr, r = .ok nr) :
    runExecutionLoop E wf execId (fuel + 1) completed = .error e ∧
    processResults completed (pre ++ .error e :: post) =
      processResults completed (pre ++ [.error e]) := by
  constructor
  · rw [runExecutionLoop]
    rw [if_neg (fun hc => hready (List.isEmpty_iff.mp hc))]
    simp only [hexec]
    rw [processResults_append_error e post pre completed hpre]
  · rw [processResults_append_error e post pre completed hpre,
      processResults_append_error e [] pre completed hpre]

/-- C3 witness: in the linear workflow under the failing executor, the
single-result batch `[error]` aborts the loop with that error. -/
theorem claimC3_witness :
    runExecutionLoop extBoom wfLin "e" 2 [("t", nrT)] =
      .error (.componentExecution (.componentError "boom")) ∧
    processResults [("t", nrT)]
        ([] ++ .error (.componentExecution (.componentError "boom")) :: []) =
      processResults [("t", nrT)] ([] ++ [.error (.componentExecution (.componentError "boom"))]) :=
  claimC3 extBoom wfLin "e" [("t", nrT)] 1 [] []
    (.componentExecution (.componentError "boom"))
    (by decide) rfl (by simp)

-- ===========================================================================
-- C6: context assembly
-- ===========================================================================

/-- C6: confirmed.  `resolve_inputs` assembles its template context so
that for a join the context is the object mapping every upstream node id
to its value (collected into a key-sorted `serde_json::Map`); for a single
upstream entry without a join the context is that value itself; and with
zero upstream entries it is the empty object. -/
theorem claimC6 (u : List (String × Json)) :
    ((keysOf u).Nodup →
      ∃ fields, buildContext u true = .obj fields ∧
        (∀ k, lookupKV fields k = lookupKV u k) ∧
        (∀ k, k ∈ keysOf fields ↔ k ∈ keysOf u)) ∧
    (∀ k v, u = [(k, v)] → buildContext u false = v) ∧
    (u = [] → buildContext u false = .obj [] ∧ buildContext u true = .obj []) := by
  refine ⟨fun hnd => ⟨toBTreeMap u, rfl, fun k => lookupKV_toBTreeMap u hnd k, fun k => ?_⟩,
    ?_, ?_⟩
  · rw [← lookupKV_isSome_iff, ← lookupKV_isSome_iff, lookupKV_toBTreeMap u hnd k]
  · intro k v hu; subst hu; rfl
  · intro hu; subst hu; exact ⟨rfl, rfl⟩

/-- C6 witness: a singleton upstream map yields its value as context, and
the empty map yields the empty object. -/
theorem claimC6_witness :
    buildContext [("p", Json.int 1)] false = Json.int 1 ∧
    buildContext [] false = Json.obj [] :=
  ⟨(claimC6 [("p", Json.int 1)]).2.1 "p" (Json.int 1) rfl,
    ((claimC6 []).2.2 rfl).1⟩

-- ===========================================================================
-- C9: determinism of template resolution
-- ===========================================================================

/-- C9: corrected (amended form).  Template resolution depends only on the
key-value pairs of the upstream map — not on its iteration order —
whenever `is_join` is true (the context is canonicalized into a key-sorted
object) or the map has at most one entry; these cover every call the
scheduler makes.  Without that restriction the claim fails (see the
counterexample). -/
theorem claimC9 (render : String → Json → Except String String) (nodeId : String)
    (inputs : List (String × String)) (u1 u2 : List (String × Json)) (isJoin : Bool)
    (hnd : (keysOf u1).Nodup) (hperm : u1.Perm u2)
    (hcall : isJoin = true ∨ u1.length ≤ 1) :
    resolveInputs render nodeId inputs u1 isJoin =
      resolveInputs render nodeId inputs u2 isJoin := by
  have hctx : buildContext u1 isJoin = buildContext u2 isJoin := by
    rcases hcall with hj | hlen
    · subst hj
      have hnd2 : (keysOf u2).Nodup := ((hperm.map Prod.fst).nodup_iff).mp hnd
      show Json.obj (toBTreeMap u1) = Json.obj (toBTreeMap u2)
      congr 1
      apply KSorted_ext _ _ (KSorted_toBTreeMap u1) (KSorted_toBTreeMap u2)
      intro k
      rw [lookupKV_toBTreeMap u1 hnd k, lookupKV_toBTreeMap u2 hnd2 k]
      exact lookupKV_perm hperm hnd k
    · have heq : u1 = u2 := by
        cases u1 with
        | nil => exact (hperm.symm.eq_nil).symm ▸ rfl
        | cons a t =>
          cases t with
          | nil => exact (List.perm_singleton.mp hperm.symm).symm
          | cons b t2 => simp at hlen
      rw [heq]
  simp only [resolveInputs]
  rw [hctx]

/-- The model minijinja renderer for a template that is a single variable
interpolation: the template names a field of the object context and the
render result is that field's string value.  (In minijinja syntax the
corresponding template wraps the variable name in double braces.) -/
def renderVar (tmpl : String) (ctx : Json) : Except String String :=
  match ctx with
  | .obj fields =>
    match lookupKV fields tmpl with
    | some (.str s) => .ok s
    | some _ => .error "variable is not a string"
    | none => .error "undefined variable"
  | _ => .error "context is not an object"

/-- First upstream map of the determinism counterexample. -/
def u1cex : List (String × Json) :=
  [("p", .obj [("a", .str "1")]), ("q", .obj [("a", .str "2")])]

/-- The same key-value pairs in the other iteration order. -/
def u2cex : List (String × Json) :=
  [("q", .obj [("a", .str "2")]), ("p", .obj [("a", .str "1")])]

/-- C9 counterexample: two upstream maps with identical key-value pairs,
identical template maps and the same (false) join flag render differently:
a non-join context is the map's first value, which depends on iteration
order. -/
theorem claimC9_counterexample :
    u1cex.Perm u2cex ∧
    resolveInputs renderVar "n" [("x", "a")] u1cex false = .ok [("x", "1")] ∧
    resolveInputs renderVar "n" [("x", "a")] u2cex false = .ok [("x", "2")] ∧
    resolveInputs renderVar "n" [("x", "a")] u1cex false ≠
      resolveInputs renderVar "n" [("x", "a")] u2cex false := by
  refine ⟨List.Perm.swap _ _ _, rfl, rfl, ?_⟩
  intro hcontra
  have h1 : resolveInputs renderVar "n" [("x", "a")] u1cex false = .ok [("x", "1")] := rfl
  have h2 : resolveInputs renderVar "n" [("x", "a")] u2cex false = .ok [("x", "2")] := rfl
  rw [h1, h2] at hcontra
  simp at hcontra

/-- C9 witness: for a join, permuting the upstream map does not change the
rendered result. -/
theorem claimC9_witness :
    resolveInputs renderVar "n" [("x", "p")]
        [("p", Json.str "1"), ("q", Json.str "2")] true =
      resolveInputs renderVar "n" [("x", "p")]
        [("q", Json.str "2"), ("p", Json.str "1")] true :=
  claimC9 renderVar "n" [("x", "p")] _ _ true (by decide)
    (List.Perm.swap _ _ _) (Or.inl rfl)

-- ===========================================================================
-- C5: schema coercion rules
-- ===========================================================================

/-- C5: confirmed.  Coercion of a rendered string follows the schema
table: identity for string; the 64-bit integer parse for integer (failing
otherwise); the 64-bit float parse for number, with null for a non-finite
result; case-insensitive true/false for boolean (failing otherwise); null
exactly for the empty string or the literal null (failing otherwise); the
structured-data parse, propagating parser errors, for array and object;
and an unknown property type string, a property without a type, or an
input absent from the schema all coerce as string. -/
theorem claimC5 (pI : String → Option Int) (pF : String → Option F64)
    (pJ : String → Except String Json) (nid key s : String) :
    (coerceValue pI pF pJ nid key s .string = .ok (.str s)) ∧
    (∀ n, pI s = some n → coerceValue pI pF pJ nid key s .integer = .ok (.int n)) ∧
    (pI s = none → ∃ msg, coerceValue pI pF pJ nid key s .integer =
      .error (.inputResolution nid msg)) ∧
    (∀ f, pF s = some f → f.finite = true →
      coerceValue pI pF pJ nid key s .number = .ok (.num f)) ∧
    (∀ f, pF s = some f → f.finite = false →
      coerceValue pI pF pJ nid key s .number = .ok .null) ∧
    (pF s = none → ∃ msg, coerceValue pI pF pJ nid key s .number =
      .error (.inputResolution nid msg)) ∧
    (s.toLower = "true" → coerceValue pI pF pJ nid key s .boolean = .ok (.bool true)) ∧
    (s.toLower ≠ "true" → s.toLower = "false" →
      coerceValue pI pF pJ nid key s .boolean = .ok (.bool false)) ∧
    (s.toLower ≠ "true" → s.toLower ≠ "false" →
      ∃ msg, coerceValue pI pF pJ nid key s .boolean =
        .error (.inputResolution nid msg)) ∧
    ((s = "" ∨ s = "null") → coerceValue pI pF pJ nid key s .null = .ok .null) ∧
    (s ≠ "" → s ≠ "null" →
      ∃ msg, coerceValue pI pF pJ nid key s .null = .error (.inputResolution nid msg)) ∧
    (∀ j, pJ s = .ok j → coerceValue pI pF pJ nid key s .array = .ok j ∧
      coerceValue pI pF pJ nid key s .object = .ok j) ∧
    (∀ em, pJ s = .error em →
      (∃ m1, coerceValue pI pF pJ nid key s .array = .error (.inputResolution nid m1)) ∧
      (∃ m2, coerceValue pI pF pJ nid key s .object = .error (.inputResolution nid m2))) ∧
    (∀ ps ty, jsonGet ps "type" = some (.str ty) →
      ty ∉ (["string", "number", "integer", "boolean", "null", "array", "object"] :
        List String) →
      extractOne ps = some .string) ∧
    (∀ ps, (jsonGet ps "type").bind jsonAsStr = none → extractOne ps = none) ∧
    (∀ schema : List (String × SchemaType), lookupKV schema key = none →
      schemaTypeFor schema key = .string) := by
  refine ⟨rfl, ?_, ?_, ?_, ?_, ?_, ?_, ?_, ?_, ?_, ?_, ?_, ?_, ?_, ?_, ?_⟩
  · intro n h; simp [coerceValue, h]
  · intro h
    exact ⟨"input " ++ key ++ " expected integer, got " ++ s, by simp [coerceValue, h]⟩
  · intro f h hf; simp [coerceValue, h, hf]
  · intro f h hf; simp [coerceValue, h, hf]
  · intro h
    exact ⟨"input " ++ key ++ " expected number, got " ++ s, by simp [coerceValue, h]⟩
  · intro h; simp [coerceValue, h]
  · intro h1 h2; simp [coerceValue, h1, h2]
  · intro h1 h2
    exact ⟨"input " ++ key ++ " expected boolean, got " ++ s,
      by simp [coerceValue, h1, h2]⟩
  · intro h
    rcases h with h | h <;> simp [coerceValue, h]
  · intro h1 h2
    exact ⟨"input " ++ key ++ " expected null, got " ++ s,
      by simp [coerceValue, h1, h2]⟩
  · intro j h; exact ⟨by simp [coerceValue, h], by simp [coerceValue, h]⟩
  · intro em h
    exact ⟨⟨"input " ++ key ++ " expected array: " ++ em, by simp [coerceValue, h]⟩,
      ⟨"input " ++ key ++ " expected object: " ++ em, by simp [coerceValue, h]⟩⟩
  · intro ps ty hget hnot
    have hbind : (jsonGet ps "type").bind jsonAsStr = some ty := by
      rw [hget]; rfl
    have hty : schemaTypeOfString ty = .string := by
      unfold schemaTypeOfString
      split
      all_goals first
        | rfl
        | exact absurd (by simp) hnot
    simp only [extractOne, hbind, hty]
  · intro ps h; rw [extractOne, h]
  · intro schema h; simp [schemaTypeFor, h]

/-- A concrete integer parser for the witness. -/
def pIw : String → Option Int := fun s => if s = "42" then some 42 else none

/-- A concrete float parser for the witness: `inf` parses to a non-finite
value. -/
def pFw : String → Option F64 := fun s => if s = "inf" then some ⟨false, 1⟩ else none

/-- A concrete structured-data parser for the witness. -/
def pJw : String → Except String Json :=
  fun s => if s = "null" then .ok .null else .error "bad"

/-- C5 witness: string identity, integer parse, and null emission for a
non-finite number at concrete inputs. -/
theorem claimC5_witness :
    coerceValue pIw pFw pJw "n" "k" "42" .string = .ok (.str "42") ∧
    coerceValue pIw pFw pJw "n" "k" "42" .integer = .ok (.int 42) ∧
    coerceValue pIw pFw pJw "n" "k" "inf" .number = .ok .null :=
  ⟨(claimC5 pIw pFw pJw "n" "k" "42").1,
    (claimC5 pIw pFw pJw "n" "k" "42").2.1 42 rfl,
    (claimC5 pIw pFw pJw "n" "k" "inf").2.2.2.2.1 ⟨false, 1⟩ rfl rfl⟩

-- ===========================================================================
-- C7: pending trigger short-circuits
-- ===========================================================================

/-- C7: confirmed.  When the workflow's trigger component returns Pending,
the invocation returns success immediately with exactly one node result —
the trigger node, with null output — no matter what the task-execution
world would do (the result does not depend on it). -/
theorem claimC7 (E : Ext) (wf : Workflow) (execId : String) (payload : Json)
    (tid : String) (node : Node) (ltr : LockedTrigger) (tc : LockedTriggerComponent)
    (comp : WasmComponent)
    (hvalid : validateWorkflow wf = .ok ())
    (htrig : findTriggerNodes wf = [tid])
    (hnode : lookupKV wf.nodes tid = some node)
    (htype : node.nodeType = .trigger ltr)
    (hcomp : ltr.component = some tc)
    (hload : E.loadTriggerComponent tc = .ok comp)
    (hhandle : E.wasmHandle comp (eventForTrigger E ltr.triggerType payload)
        (resolveEpochDeadline (epochDeadlineOfTimeout node.timeoutMs)) = .ok .pending) :
    Runtime.invoke E wf execId payload =
      .ok ⟨execId, [(tid, ⟨"", tid, payload, .null, .null⟩)]⟩ := by
  have hexec : executeTrigger E wf execId payload =
      .ok (.shortCircuit ⟨"", tid, payload, .null, .null⟩) := by
    rw [executeTrigger]
    simp only [htrig, hnode, htype, hcomp, hload, hhandle]
  rw [Runtime.invoke]
  simp only [hvalid, hexec]

/-- C7 witness: the one-node workflow whose trigger component reports
Pending under `extBoom`. -/
theorem claimC7_witness :
    Runtime.invoke extBoom wfTrigComp "e" (Json.bool true) =
      .ok ⟨"e", [("t", ⟨"", "t", Json.bool true, Json.null, Json.null⟩)]⟩ :=
  claimC7 extBoom wfTrigComp "e" (Json.bool true) "t" trigCompNode
    ⟨.manual, some tcRef⟩ tcRef ⟨"tc"⟩ rfl rfl rfl rfl rfl rfl rfl

-- ===========================================================================
-- C10: duplicate edges make a join point
-- ===========================================================================

/-- C10: confirmed.  Join-point status counts edge occurrences: with the
edge `(u, v)` listed twice and no other edges into `v`, the upstream list
of `v` is `[u, u]` and `v` is a join point, so its template context is the
object mapping `u` to its output; with the edge listed once, `v` is not a
join point and its context is `u`'s output directly. -/
theorem claimC10 (u v : String) (nu nv : Node) (nr : NodeResult) (_huv : u ≠ v) :
    (Graph.new [(u, nu), (v, nv)] [(u, v), (u, v)]).upstream v = [u, u] ∧
    (Graph.new [(u, nu), (v, nv)] [(u, v), (u, v)]).isJoinPoint v = true ∧
    gatherUpstreamData [u, u] [(u, nr)] = [(u, nr.output)] ∧
    buildContext [(u, nr.output)] true = .obj [(u, nr.output)] ∧
    (Graph.new [(u, nu), (v, nv)] [(u, v)]).upstream v = [u] ∧
    (Graph.new [(u, nu), (v, nv)] [(u, v)]).isJoinPoint v = false ∧
    buildContext [(u, nr.output)] false = nr.output := by
  refine ⟨?_, ?_, ?_, ?_, ?_, ?_, ?_⟩
  · rw [Graph.upstream_new]; simp
  · rw [Graph.isJoinPoint_iff, Graph.upstream_new]; simp
  · simp [gatherUpstreamData, lookupKV, insertKV]
  · rfl
  · rw [Graph.upstream_new]; simp
  · have hup : (Graph.new [(u, nu), (v, nv)] [(u, v)]).upstream v = [u] := by
      rw [Graph.upstream_new]; simp
    have hiff := Graph.isJoinPoint_iff [(u, nu), (v, nv)] [(u, v)] v
    rw [hup] at hiff
    simp at hiff
    exact hiff
  · rfl

/-- C10 witness: the duplicate-edge graph on concrete nodes. -/
theorem claimC10_witness :
    (Graph.new [("u", compNode "u"), ("v", compNode "v")]
      [("u", "v"), ("u", "v")]).isJoinPoint "v" = true ∧
    buildContext [("u", nrT.output)] false = nrT.output :=
  ⟨(claimC10 "u" "v" (compNode "u") (compNode "v") nrT (by decide)).2.1,
    (claimC10 "u" "v" (compNode "u") (compNode "v") nrT (by decide)).2.2.2.2.2.2⟩

-- ===========================================================================
-- C1: completion invariant of successful executions
-- ===========================================================================

/-- C1: corrected (amended form).  For an invocation that proceeds past
the trigger (no Pending short-circuit) on a workflow whose node keys are
unique, whose edge sources are node keys, and whose edges admit a strictly
increasing rank (acyclicity, as the resolver guarantees), a successful
result's node-result keys are exactly the workflow's node ids, each
appearing once.  Without acyclicity or edge closure the loop can exit
early with a strict subset (see the counterexample). -/
theorem claimC1 (E : Ext) (wf : Workflow) (execId : String) (payload : Json)
    (rank : String → Nat) (nr : NodeResult) (res : InvokeResult)
    (hnodup : (keysOf wf.nodes).Nodup)
    (hrank : ∀ e ∈ wf.edges, rank e.1 < rank e.2)
    (hclosed : ∀ e ∈ wf.edges, e.1 ∈ wf.nodeIds)
    (htrig : executeTrigger E wf execId payload = .ok (.proceed nr))
    (hok : Runtime.invoke E wf execId payload = .ok res) :
    (keysOf res.nodeResults).Nodup ∧
      ∀ id, id ∈ keysOf res.nodeResults ↔ id ∈ wf.nodeIds := by
  rw [Runtime.invoke] at hok
  cases hv : validateWorkflow wf with
  | error e => simp [hv] at hok
  | ok u =>
    cases u
    simp only [hv, htrig] at hok
    obtain ⟨restT, hft⟩ := executeTrigger_proceed_nodeId E wf execId payload nr htrig
    have hval := (validateWorkflow_ok_iff wf).mp hv
    have hrest : restT = [] := by
      have hlen := hval.1
      rw [hft] at hlen
      simp only [List.length_cons] at hlen
      exact List.length_eq_zero.mp (by omega)
    subst hrest
    refine runLoop_ok_complete E wf execId rank hrank hclosed _ _ res ?_ ?_ ?_ hok
    · intro k hk
      have hkid : k = nr.nodeId := by simpa using hk
      subst hkid
      exact findTriggerNodes_sub wf _ (by rw [hft]; exact List.mem_cons_self _ _)
    · intro id hid
      obtain ⟨n, hn, hnt⟩ := hval.2 id hid
      have hmem : id ∈ findTriggerNodes wf :=
        mem_findTriggerNodes_of_lookup wf id n hnodup hn hnt
      rw [hft] at hmem
      have : id = nr.nodeId := by simpa using hmem
      subst this
      simp
    · simp

/-- C1 counterexample: `wfCyc` has a cycle `a -> b -> a`; its invocation
returns success with only the trigger in the node-results map although
`a` is a workflow node. -/
theorem claimC1_counterexample :
    Runtime.invoke extBoom wfCyc "e" Json.null = .ok ⟨"e", [("t", nrT)]⟩ ∧
    "a" ∈ wfCyc.nodeIds ∧
    lookupKV [(("t" : String), nrT)] "a" = none :=
  ⟨rfl, by decide, rfl⟩

/-- C1 witness: the linear workflow `t -> a` under the succeeding executor
completes both nodes. -/
theorem claimC1_witness :
    (keysOf [(("t" : String), nrT), ("a", nrA)]).Nodup ∧
      ("a" ∈ keysOf [(("t" : String), nrT), ("a", nrA)] ↔ "a" ∈ wfLin.nodeIds) :=
  ⟨(claimC1 extOk wfLin "e" Json.null rankLin nrT ⟨"e", [("t", nrT), ("a", nrA)]⟩
      (by decide) (by decide) (by decide) rfl rfl).1,
    (claimC1 extOk wfLin "e" Json.null rankLin nrT ⟨"e", [("t", nrT), ("a", nrA)]⟩
      (by decide) (by decide) (by decide) rfl rfl).2 "a"⟩
